import Mathlib

/-!
Verification of the rss_reader_web pipeline against its specification.

This file gives a shallow embedding, in Lean 4, of the parts of the
repository that the checked claims are about:

* `rss_core/utils.py` (the copy preserved under `backups/20260118_1450/`,
  which is the only copy of this module in the tree): `normalize_link`,
  `normalize_image_url`, `is_generic_image`, `parse_pub_date`, `strip_html`,
  `save_json`;
* `rss_core/model.py`: the `Item` dataclass;
* `rss_core/feed_parser.py`: `parse_items`, `scrape_html_feed`,
  `get_rss_image`, `get_rss_image_from_desc`;
* `rss_core/fetcher.py`: `Fetcher.fetch_url`, `Fetcher.download_image`;
* `rss_core/html_cleaner.py`: `clean_html_fragment`;
* `build.py`: the orchestrator's filter/dedup/sort stage and `enrich_job`.

Modelling conventions:

* Python `datetime` objects are modelled by `PyDateTime`: a wall-clock
  reading (seconds) plus an optional UTC offset; `none` models a naive
  datetime.  Aware datetimes compare by instant (wall minus offset).
* Byte strings are `List Nat` (one `Nat` per byte, values < 256 where the
  source guarantees it).
* External library calls whose outputs the repository merely consumes
  (the RFC-2822 date parser, the XML/HTML parsers of `xml.etree` and
  `lxml`, the regex image extraction on feed summaries, the OpenCC
  conversion `to_trad`) enter the model as explicit oracle inputs: the
  decoded structures they would produce are part of the modelled input.
  All logic the repository itself performs on those structures is
  translated from the source.
* Python `str.strip` / `str.lower` are modelled for the ASCII range
  (`pyStrip`, `pyLower`); every string these models are applied to in the
  theorems below is ASCII.
* `html.unescape` is modelled for the five predefined XML entities
  (`htmlUnescape`); no theorem below depends on other entity forms.
* base64 encode/decode of cached feed payloads round-trips, so the model
  stores payload bytes directly in the feed-cache entry.
-/

namespace RssReader

/-! ## Small string helpers (models of Python primitives) -/

/-- Python whitespace for `str.strip` (ASCII subset). -/
def isPyWs (c : Char) : Bool :=
  c = ' ' ∨ c = Char.ofNat 9 ∨ c = Char.ofNat 10 ∨ c = Char.ofNat 13 ∨
  c = Char.ofNat 11 ∨ c = Char.ofNat 12

/-- Model of Python `str.strip()` (ASCII whitespace). -/
def pyStrip (s : String) : String :=
  ⟨((s.data.dropWhile isPyWs).reverse.dropWhile isPyWs).reverse⟩

/-- Model of Python `str.lower()` (ASCII range). -/
def pyLower (s : String) : String :=
  ⟨s.data.map Char.toLower⟩

/-- Does the pattern occur as a contiguous sublist? (model of Python's
`in` on strings). -/
def listContainsSub (l pat : List Char) : Bool :=
  match l with
  | [] => pat.isPrefixOf ([] : List Char)
  | _ :: rest => pat.isPrefixOf l || listContainsSub rest pat

/-- Model of Python `pat in s` for strings. -/
def strContains (s pat : String) : Bool :=
  listContainsSub s.data pat.data

/-- Model of Python `s.startswith(p)`. -/
def strStartsWith (s p : String) : Bool :=
  p.data.isPrefixOf s.data

/-- Model of Python `s.endswith(p)`. -/
def strEndsWith (s p : String) : Bool :=
  p.data.isSuffixOf s.data

/-- Split at every occurrence of a (non-empty) separator; `fuel` only
bounds the recursion and is always supplied larger than the input. -/
def splitOnListAux (sep : List Char) : Nat → List Char → List Char →
    List (List Char)
  | 0, acc, l => [acc.reverse ++ l]
  | _ + 1, acc, [] => [acc.reverse]
  | fuel + 1, acc, c :: rest =>
    if ¬ sep.isEmpty ∧ sep.isPrefixOf (c :: rest) then
      acc.reverse :: splitOnListAux sep fuel [] ((c :: rest).drop sep.length)
    else
      splitOnListAux sep fuel (c :: acc) rest

/-- Model of Python `s.split(sep)` / Lean `String.splitOn`. -/
def splitOnStr (s sep : String) : List String :=
  (splitOnListAux sep.data (s.data.length + 1) [] s.data).map (⟨·⟩)

/-- One entity-decoding pass of `html.unescape`, covering the five
predefined XML entities; other entity forms pass through unchanged (no
theorem below depends on them).  `fuel` bounds the recursion and is
always supplied larger than the input. -/
def unescapeAux : Nat → List Char → List Char
  | 0, l => l
  | _ + 1, [] => []
  | fuel + 1, c :: rest =>
    if c = '&' then
      if ['a', 'm', 'p', ';'].isPrefixOf rest then
        '&' :: unescapeAux fuel (rest.drop 4)
      else if ['l', 't', ';'].isPrefixOf rest then
        '<' :: unescapeAux fuel (rest.drop 3)
      else if ['g', 't', ';'].isPrefixOf rest then
        '>' :: unescapeAux fuel (rest.drop 3)
      else if ['q', 'u', 'o', 't', ';'].isPrefixOf rest then
        Char.ofNat 34 :: unescapeAux fuel (rest.drop 5)
      else if ['#', '3', '9', ';'].isPrefixOf rest then
        Char.ofNat 39 :: unescapeAux fuel (rest.drop 4)
      else if ['a', 'p', 'o', 's', ';'].isPrefixOf rest then
        Char.ofNat 39 :: unescapeAux fuel (rest.drop 5)
      else
        c :: unescapeAux fuel rest
    else
      c :: unescapeAux fuel rest

/-- Model of Python `html.unescape` (predefined XML entities). -/
def htmlUnescape (s : String) : String :=
  ⟨unescapeAux (s.data.length + 1) s.data⟩

/-- The double-quote character (written by code to stay clear of string
escapes). -/
def dq : Char := Char.ofNat 34

/-- The single-quote character. -/
def sq : Char := Char.ofNat 39

/-- The newline character. -/
def nl : Char := Char.ofNat 10

/-- Case-insensitive prefix test (both sides lowered, ASCII). -/
def ciPrefixOf (pat l : List Char) : Bool :=
  pat.isPrefixOf (l.map Char.toLower)

/-- Index of the first case-insensitive occurrence of `pat`. -/
def findCiIdx (pat : List Char) : List Char → Option Nat
  | [] => if pat.isEmpty then some 0 else none
  | c :: rest =>
    if ciPrefixOf pat (c :: rest) then some 0
    else (findCiIdx pat rest).map (· + 1)

/-- Model of `re.sub(r"<tag[^>]*>.*?</tag>", "", s, flags=re.S | re.I)`:
remove every case-insensitive block that opens with `openPat` followed by
non-`>` characters and a `>`, and closes at the nearest occurrence of
`closePat`.  `fuel` bounds the recursion and is always supplied larger
than the input. -/
def stripBlocksCiAux (openPat closePat : List Char) : Nat → List Char →
    List Char
  | 0, l => l
  | _ + 1, [] => []
  | fuel + 1, c :: rest =>
    if ciPrefixOf openPat (c :: rest) then
      let after := (c :: rest).drop openPat.length
      let attrs := after.takeWhile (fun ch => ch ≠ '>')
      if attrs.length < after.length then
        let afterGt := after.drop (attrs.length + 1)
        match findCiIdx closePat afterGt with
        | some k =>
          stripBlocksCiAux openPat closePat fuel (afterGt.drop (k + closePat.length))
        | none => c :: stripBlocksCiAux openPat closePat fuel rest
      else c :: stripBlocksCiAux openPat closePat fuel rest
    else c :: stripBlocksCiAux openPat closePat fuel rest

/-- `stripBlocksCiAux` with sufficient fuel. -/
def stripBlocksCi (openPat closePat l : List Char) : List Char :=
  stripBlocksCiAux openPat closePat (l.length + 1) l

/-- Model of `re.sub(r"<[^>]+>", "", s)`: drop each maximal `<...>` span
with a non-empty body that contains no `>`.  `fuel` bounds the recursion
and is always supplied larger than the input. -/
def removeTagsAux : Nat → List Char → List Char
  | 0, l => l
  | _ + 1, [] => []
  | fuel + 1, c :: rest =>
    if c = '<' then
      let body := rest.takeWhile (fun ch => ch ≠ '>')
      if ¬ body.isEmpty ∧ body.length < rest.length then
        removeTagsAux fuel (rest.drop (body.length + 1))
      else c :: removeTagsAux fuel rest
    else c :: removeTagsAux fuel rest

/-- `removeTagsAux` with sufficient fuel. -/
def removeTagsChars (l : List Char) : List Char :=
  removeTagsAux (l.length + 1) l

/-- Within one maximal whitespace run, the effect of
`re.sub(r"\s+\n", "\n", s)`: if the run's last newline is preceded by at
least one whitespace character, everything up to and including that
newline collapses to one newline. -/
def wsRunSqueezeBeforeNl (run : List Char) : List Char :=
  match run.reverse.findIdx? (fun c => c = nl) with
  | some j =>
    let k := run.length - 1 - j
    if 1 ≤ k then nl :: run.drop (k + 1) else run
  | none => run

/-- Within one maximal whitespace run, the effect of
`re.sub(r"\n\s+", "\n", s)`: everything after the run's first newline
collapses away. -/
def wsRunSqueezeAfterNl (run : List Char) : List Char :=
  match run.findIdx? (fun c => c = nl) with
  | some i => if i + 1 < run.length then run.take (i + 1) else run
  | none => run

/-- Apply a per-run transform to each maximal whitespace run (both regexes
above consist of whitespace only, so they act run by run).  `fuel` bounds
the recursion and is always supplied larger than the input. -/
def mapWsRunsAux (f : List Char → List Char) : Nat → List Char → List Char
  | 0, l => l
  | _ + 1, [] => []
  | fuel + 1, c :: rest =>
    if isPyWs c then
      let run := (c :: rest).takeWhile isPyWs
      f run ++ mapWsRunsAux f fuel ((c :: rest).drop run.length)
    else c :: mapWsRunsAux f fuel rest

/-- `mapWsRunsAux` with sufficient fuel. -/
def mapWsRuns (f : List Char → List Char) (l : List Char) : List Char :=
  mapWsRunsAux f (l.length + 1) l

/-- `utils.strip_html`: unescape entities, drop script/style blocks, drop
tags, squeeze whitespace around newlines, strip. -/
def strip_html (value : String) : String :=
  if value = "" then ""
  else
    let t := (htmlUnescape value).data
    let t := stripBlocksCi "<script".data "</script>".data t
    let t := stripBlocksCi "<style".data "</style>".data t
    let t := removeTagsChars t
    let t := mapWsRuns wsRunSqueezeBeforeNl t
    let t := mapWsRuns wsRunSqueezeAfterNl t
    pyStrip ⟨t⟩

/-- Model of `re.search(r'href=["\x27]([^"\x27]+)["\x27]', l)`: the first
quoted, non-empty `href` attribute value.  `fuel` bounds the recursion
and is always supplied larger than the input. -/
def findHrefAttrAux : Nat → List Char → Option String
  | 0, _ => none
  | _ + 1, [] => none
  | fuel + 1, c :: rest =>
    if ['h', 'r', 'e', 'f', '='].isPrefixOf (c :: rest) then
      match (c :: rest).drop 5 with
      | [] => none
      | q :: rest2 =>
        if q = dq ∨ q = sq then
          let body := rest2.takeWhile (fun ch => ch ≠ dq ∧ ch ≠ sq)
          if ¬ body.isEmpty ∧ body.length < rest2.length then some ⟨body⟩
          else findHrefAttrAux fuel rest
        else findHrefAttrAux fuel rest
    else findHrefAttrAux fuel rest

/-- `findHrefAttrAux` with sufficient fuel. -/
def findHrefAttr (l : List Char) : Option String :=
  findHrefAttrAux (l.length + 1) l

/-- `utils.normalize_link`. -/
def normalize_link (link : String) : String :=
  if link = "" then ""
  else
    let l := pyStrip (htmlUnescape link)
    match (if strContains l "<a" && strContains l "href" then findHrefAttr l.data
           else none) with
    | some g => pyStrip g
    | none =>
      let l := if l.data.contains dq then pyStrip ⟨l.data.takeWhile (fun ch => ch ≠ dq)⟩
               else l
      let l := if l.data.contains ' ' then pyStrip ⟨l.data.takeWhile (fun ch => ch ≠ ' ')⟩
               else l
      l

/-- Model of `urllib.parse.urljoin` for the URL shapes this pipeline
produces: absolute `http(s)` references are kept, scheme-relative and
root-relative references resolve against the base, other references
resolve against the base's directory. -/
def urljoinModel (base rel : String) : String :=
  if rel = "" then base
  else if strStartsWith rel "http://" || strStartsWith rel "https://" then rel
  else if strStartsWith rel "//" then schemePart base ++ ":" ++ rel
  else if strStartsWith rel "/" then hostPart base ++ rel
  else dirPart base ++ rel
where
  /-- Scheme of an absolute URL (text before the first "://"). -/
  schemePart (u : String) : String :=
    ⟨u.data.takeWhile (fun c => c ≠ ':')⟩
  /-- Scheme plus authority of an absolute URL. -/
  hostPart (u : String) : String :=
    match splitOnStr u "://" with
    | s :: h :: _ => s ++ "://" ++ ⟨h.data.takeWhile (fun c => c ≠ '/')⟩
    | _ => ""
  /-- Base directory: up to and including the last slash of the path, or
  the authority root when the path is empty. -/
  dirPart (u : String) : String :=
    match splitOnStr u "://" with
    | s :: h :: rest =>
      let tail := String.intercalate "://" (h :: rest)
      if tail.data.contains '/' then
        s ++ "://" ++ ⟨(tail.data.reverse.dropWhile (fun c => c ≠ '/')).reverse⟩
      else s ++ "://" ++ tail ++ "/"
    | _ => ""

/-- `utils.normalize_image_url`. -/
def normalize_image_url (base_url raw_url : String) : String :=
  if raw_url = "" then ""
  else
    let r := pyStrip raw_url
    if strStartsWith r "//" then "https:" ++ r
    else if strStartsWith r "http://" || strStartsWith r "https://" then r
    else urljoinModel base_url r

/-- The placeholder lexicon of `utils.is_generic_image`. -/
def genericImageKeys : List String :=
  ["logo", "default", "placeholder", "site-logo", "share", "social",
   "/seo/", "image/seo", "/res/v3/image/seo", "grey.gif", "blank.gif",
   "transparent.gif"]

/-- `utils.is_generic_image`. -/
def is_generic_image (url : String) (source_url : Option String) : Bool :=
  if url = "" then true
  else
    let lowered := pyLower url
    let keys :=
      match source_url with
      | some s =>
        if s ≠ "" && strContains s "mingpao.com" then
          genericImageKeys.filter (fun k => k ≠ "image/seo" ∧ k ≠ "/res/v3/image/seo")
        else genericImageKeys
      | none => genericImageKeys
    keys.any (fun k => strContains lowered k)

/-- `parse_items` line 165: strip low control characters
(`[\x00-\x08\x0b\x0c\x0e-\x1f\x7f]`). -/
def removeCtrl (s : String) : String :=
  ⟨s.data.filter (fun c =>
    ¬ (c.toNat ≤ 8 ∨ c.toNat = 11 ∨ c.toNat = 12 ∨
       (14 ≤ c.toNat ∧ c.toNat ≤ 31) ∨ c.toNat = 127))⟩

/-! ## Python datetime model -/

/-- A Python `datetime`: a wall-clock reading in seconds together with the
`utcoffset` of its `tzinfo` in seconds, or `none` for a naive datetime. -/
structure PyDateTime where
  wall : Int
  off : Option Int
  deriving DecidableEq, Repr

/-- UTC offset of `Asia/Hong_Kong` in seconds (UTC+8, no DST). -/
def hkOff : Int := 8 * 3600

/-- The instant an aware `Asia/Hong_Kong` datetime denotes (wall minus
offset); used to compare datetimes normalized to that zone. -/
def instantHK (d : PyDateTime) : Int := d.wall - hkOff

/-- `build.py` lines 100-103: a naive timestamp gets the Hong Kong zone
attached (`replace(tzinfo=hk_tz)`, keeping its wall reading); an aware one
is converted (`astimezone(hk_tz)`, keeping its instant). -/
def normalizeToHK (d : PyDateTime) : PyDateTime :=
  match d.off with
  | none => ⟨d.wall, some hkOff⟩
  | some o => ⟨d.wall - o + hkOff, some hkOff⟩

/-- `utils.parse_pub_date`.  `pd` is the oracle for the library call
`email.utils.parsedate_to_datetime` (`none` models both an empty parse and
a raised exception); the repository's own logic is the `None` guard and
the naive-to-`Asia/Hong_Kong` assignment. -/
def parse_pub_date (pd : String → Option PyDateTime) (text : String) :
    Option PyDateTime :=
  if text = "" then none
  else
    match pd text with
    | none => none
    | some dt =>
      match dt.off with
      | none => some ⟨dt.wall, some hkOff⟩
      | some _ => some dt

/-! ## The Item dataclass (`rss_core/model.py`) -/

/-- `rss_core/model.py`: the `Item` dataclass. -/
structure Item where
  title : String
  link : String
  pub_dt : Option PyDateTime
  pub_text : String
  source : String
  category : String
  summary : String
  rss_image : String
  extra_images : List String := []
  image_count : Nat := 0
  content_text : String := ""
  content_html : String := ""
  og_image : String := ""
  deriving DecidableEq, Repr

/-- The generated `Item.__init__`: `category` and `summary` have no
default value in the dataclass, so a call that omits them raises
`TypeError`.  Call sites pass `none` for an omitted argument. -/
def itemInit (title link : String) (pub_dt : Option PyDateTime)
    (pub_text source : String) (category summary : Option String)
    (rss_image : String) : Except String Item :=
  match category, summary with
  | some c, some s =>
    .ok { title := title, link := link, pub_dt := pub_dt,
          pub_text := pub_text, source := source, category := c,
          summary := s, rss_image := rss_image }
  | _, _ =>
    .error "TypeError: __init__ missing required arguments category/summary"

/-! ## Orchestrator filter/dedup/sort stage (`build.py` lines 86-117) -/

/-- `config.DEFAULT_LOOKBACK_HOURS = 6.0`, as seconds. -/
def lookbackSeconds : Int := 6 * 3600

/-- `config.DEFAULT_MAX_ITEMS`. -/
def DEFAULT_MAX_ITEMS : Nat := 200

/-- `build.py` lines 95-112: one pass over `raw_items` that drops items
without a timestamp, normalizes the timestamp to `Asia/Hong_Kong`, drops
items strictly before the cutoff, and keeps the first occurrence of each
link (`seen_links`).  `cutoff` is the instant `now - 6 hours`. -/
def dedupFilter (cutoff : Int) : List Item → List String → List Item
  | [], _ => []
  | i :: rest, seen =>
    match i.pub_dt with
    | none => dedupFilter cutoff rest seen
    | some dt =>
      let dt' := normalizeToHK dt
      if instantHK dt' < cutoff then dedupFilter cutoff rest seen
      else if i.link ∈ seen then dedupFilter cutoff rest seen
      else { i with pub_dt := some dt' } :: dedupFilter cutoff rest (i.link :: seen)

/-- Sort key of `valid_items.sort(key=lambda x: x.pub_dt, reverse=True)`;
after the filter every item is aware, and aware datetimes compare by
instant. -/
def sortKey (i : Item) : Int :=
  match i.pub_dt with
  | some d => d.wall - (d.off.getD 0)
  | none => 0

/-- Stable insertion into a descending-by-key list (equal keys keep the
earlier element first, as Python's stable sort does). -/
def insertDesc (x : Item) : List Item → List Item
  | [] => [x]
  | y :: ys => if sortKey y ≤ sortKey x then x :: y :: ys else y :: insertDesc x ys

/-- Stable descending sort, modelling `list.sort(key=..., reverse=True)`. -/
def sortDesc : List Item → List Item
  | [] => []
  | x :: xs => insertDesc x (sortDesc xs)

/-- `build.py` lines 95-117: the `valid_items` list handed to enrichment —
filter and dedup, sort descending by timestamp, cap at
`DEFAULT_MAX_ITEMS`.  Enrichment and category assignment mutate fields of
these records but never add or drop one, so membership in the final
snapshot is membership here.  `nowI` is the instant of
`datetime.now(hk_tz)`. -/
def snapshotItems (nowI : Int) (raw : List Item) : List Item :=
  (sortDesc (dedupFilter (nowI - lookbackSeconds) raw [])).take DEFAULT_MAX_ITEMS

/-! ## Feed decoder (`rss_core/feed_parser.py`)

The XML/HTML library parses enter the model as oracle data carried by the
payload: `anchors` is the anchor list `lxml.html` would extract from the
text (in document order), `strictEntries` the `.//item` elements
`xml.etree.ElementTree.fromstring` would yield (`none` models
`ET.ParseError`), `laxEntries` the `//item` / `//entry` elements of the
recovering `lxml` parse (`none` models that parse raising).  All
per-entry field extraction, normalization and record construction below
is translated from the source. -/

/-- One `<a>` element of the scraped listing page: its `href` attribute,
its `title` attribute, and the concatenation of its descendant text
nodes. -/
structure Anchor where
  href : Option String
  titleAttr : Option String
  innerText : String
  deriving DecidableEq, Repr

/-- One `<item>` element as seen by the strict `ElementTree` branch.
`firstMediaUrl` is the `url` attribute of the first child whose tag ends
in `enclosure` or is a `media` `content` tag (`get_rss_image` returns on
the first such child).  `descImgSrc` / `descImgDataSrc` are the oracle
results of the two `re.search` image extractions on the description
markup. -/
structure FeedEntry where
  title : String
  link : String
  pubDate : String
  description : String
  encoded : String
  firstMediaUrl : Option String
  descImgSrc : Option String
  descImgDataSrc : Option String
  deriving DecidableEq, Repr

/-- One `//item` or `//entry` element as seen by the tolerant `lxml`
branch (`parse_items` lines 196-261). -/
structure LaxEntry where
  title : String
  link : String
  idText : String
  linkHref : Option String
  pubDate : String
  published : String
  updated : String
  encoded : String
  description : String
  content : String
  summary : String
  descImgSrc : Option String
  descImgDataSrc : Option String
  deriving DecidableEq, Repr

/-- A raw feed payload after byte decoding, together with the oracle
parses of that text (see section comment). -/
structure RawPayload where
  text : String
  anchors : List Anchor
  strictEntries : Option (List FeedEntry)
  laxEntries : Option (List LaxEntry)

/-- `parse_items` lines 168-171: HTML sniff on the first 500 characters of
the control-stripped text. -/
def sniffHtml (text : String) : Bool :=
  strContains ⟨text.data.take 500⟩ "<!DOCTYPE html" ||
  strContains ⟨text.data.take 500⟩ "<html"

/-- `feed_parser.to_trad_if_cnbeta`; `toTrad` is the oracle for the OpenCC
conversion `to_trad` of `rss_core/parser.py`. -/
def to_trad_if_cnbeta (toTrad : String → String) (source text : String) : String :=
  if text = "" then text
  else if strContains source "cnbeta" then toTrad text
  else text

/-- `feed_parser.get_rss_image` (strict branch): first enclosure/media
child wins — and its result is returned even when the generic-image check
blanks it; otherwise the first inline image of the description, then its
lazy-loading variant. -/
def get_rss_image (e : FeedEntry) (base_url : String) : String :=
  match e.firstMediaUrl with
  | some u =>
    let url := normalize_image_url base_url u
    if is_generic_image url (some base_url) then "" else url
  | none =>
    match e.descImgSrc with
    | some m =>
      let url := normalize_image_url base_url m
      if is_generic_image url (some base_url) then "" else url
    | none =>
      match e.descImgDataSrc with
      | some m =>
        let url := normalize_image_url base_url m
        if is_generic_image url (some base_url) then "" else url
      | none => ""

/-- `feed_parser.get_rss_image_from_desc` (tolerant branch), with the two
regex results as oracle fields. -/
def get_rss_image_from_desc (descNonEmpty : Bool)
    (descImgSrc descImgDataSrc : Option String) (base_url : String) : String :=
  if ¬ descNonEmpty then ""
  else
    match descImgSrc with
    | some m =>
      let url := normalize_image_url base_url m
      if is_generic_image url (some base_url) then "" else url
    | none =>
      match descImgDataSrc with
      | some m =>
        let url := normalize_image_url base_url m
        if is_generic_image url (some base_url) then "" else url
      | none => ""

/-- `find_text`: element text, stripped ("" when the element is absent). -/
def findText (s : String) : String := pyStrip s

/-- `find_text_any(item, ["encoded", "description"])` plus the namespaced
`content:encoded` fallback, as used by the strict branch. -/
def findTextAnySummary (e : FeedEntry) : String :=
  if pyStrip e.encoded ≠ "" then pyStrip e.encoded
  else pyStrip e.description

/-- Strict-branch record construction (`parse_items` lines 175-194).
All required dataclass fields are passed here, so construction cannot
fail. -/
def mkItemStrict (toTrad : String → String)
    (pd : String → Option PyDateTime) (source category : String)
    (e : FeedEntry) : Item :=
  let title := findText e.title
  let link := normalize_link (findText e.link)
  let pub_text := findText e.pubDate
  let pub_dt := parse_pub_date pd pub_text
  let summary := findTextAnySummary e
  let rss_image := get_rss_image e link
  { title := to_trad_if_cnbeta toTrad source (strip_html title),
    link := link, pub_dt := pub_dt, pub_text := pub_text, source := source,
    category := category,
    summary := to_trad_if_cnbeta toTrad source (strip_html summary),
    rss_image := rss_image }

/-- `lxml_text`: stripped text, "" when empty or absent. -/
def laxText (s : String) : String := pyStrip s

/-- The raw link text chosen by the tolerant branch (`parse_items`
lines 238-241): `link`, else `id`, else the Atom `link/@href`. -/
def laxRawLink (e : LaxEntry) : String :=
  let l := if laxText e.link ≠ "" then laxText e.link else laxText e.idText
  if l = "" then
    match e.linkHref with
    | some h => h
    | none => ""
  else l

/-- Tolerant-branch record construction (`parse_items` lines 236-260). -/
def mkItemLax (toTrad : String → String) (pd : String → Option PyDateTime)
    (source category : String) (e : LaxEntry) : Item :=
  let link := normalize_link (laxRawLink e)
  let pub_text :=
    if laxText e.pubDate ≠ "" then laxText e.pubDate
    else if laxText e.published ≠ "" then laxText e.published
    else laxText e.updated
  let pub_dt := parse_pub_date pd pub_text
  let desc_raw :=
    if laxText e.encoded ≠ "" then laxText e.encoded
    else if laxText e.description ≠ "" then laxText e.description
    else if laxText e.content ≠ "" then laxText e.content
    else laxText e.summary
  let rss_image :=
    get_rss_image_from_desc (desc_raw ≠ "") e.descImgSrc e.descImgDataSrc link
  { title := to_trad_if_cnbeta toTrad source (strip_html (laxText e.title)),
    link := link, pub_dt := pub_dt, pub_text := pub_text, source := source,
    category := category,
    summary := to_trad_if_cnbeta toTrad source (strip_html desc_raw),
    rss_image := rss_image }

/-- `scrape_html_feed` lines 77-81: listing-page base URL by origin. -/
def scrapeBaseUrl (source : String) : String :=
  if strContains (pyLower source) "hk01" then "https://www.hk01.com"
  else if strContains (pyLower source) "on.cc" then "https://hk.on.cc"
  else ""

/-- The HK01 loop of `scrape_html_feed` (lines 94-122).  The `Item`
construction there omits the required `category` and `summary` dataclass
fields; `itemInit` therefore returns an error, which the scraper's
`except` clause turns into "return the items accumulated so far". -/
def scrapeHk01 (nowWall : Int) (source : String) :
    List Anchor → List String → List Item
  | [], _ => []
  | a :: rest, seen =>
    match a.href with
    | none => scrapeHk01 nowWall source rest seen
    | some href =>
      if ¬ strContains href "/article/" then scrapeHk01 nowWall source rest seen
      else if href = "" ∨ href ∈ seen then scrapeHk01 nowWall source rest seen
      else
        let title := pyStrip a.innerText
        if title = "" ∨ title.length < 5 then scrapeHk01 nowWall source rest seen
        else
          match itemInit (strip_html title) href (some ⟨nowWall, none⟩) ""
              source none none "" with
          | .error _ => []
          | .ok it => it :: scrapeHk01 nowWall source rest (href :: seen)

/-- Link-shape test of the On.cc loop (line 136; note Python's operator
precedence: the conjunction binds tighter than the disjunction). -/
def onccLinkShape (href : String) : Bool :=
  strContains href "/bkn/cnt/" ||
    (strContains href "/news/" && strEndsWith href ".html")

/-- The On.cc loop of `scrape_html_feed` (lines 125-152); the same
missing-argument construction applies. -/
def scrapeOncc (nowWall : Int) (source : String) :
    List Anchor → List String → List Item
  | [], _ => []
  | a :: rest, seen =>
    match a.href with
    | none => scrapeOncc nowWall source rest seen
    | some href =>
      if href = "" then scrapeOncc nowWall source rest seen
      else if ¬ onccLinkShape href then scrapeOncc nowWall source rest seen
      else if strContains href "index.html" then scrapeOncc nowWall source rest seen
      else if href ∈ seen then scrapeOncc nowWall source rest seen
      else
        -- `seen.add(href)` runs before the title check in this loop
        let title :=
          match a.titleAttr with
          | some t => if t ≠ "" then t else pyStrip a.innerText
          | none => pyStrip a.innerText
        if title = "" ∨ title.length < 5 then
          scrapeOncc nowWall source rest (href :: seen)
        else
          match itemInit (strip_html title) href (some ⟨nowWall, none⟩) ""
              source none none "" with
          | .error _ => []
          | .ok it => it :: scrapeOncc nowWall source rest (href :: seen)

/-- `scrape_html_feed`: absolutize anchor hrefs
(`doc.make_links_absolute(base_url)`), then run the origin branch.
`nowWall` is the wall reading of the naive `datetime.now()` the loops
use. -/
def scrape_html_feed (anchors : List Anchor) (source : String)
    (nowWall : Int) : List Item :=
  let base_url := scrapeBaseUrl source
  let absAnchors :=
    anchors.map (fun a => { a with href := a.href.map (urljoinModel base_url) })
  if strContains (pyLower source) "hk01" then
    scrapeHk01 nowWall source absAnchors []
  else if strContains (pyLower source) "on.cc" then
    scrapeOncc nowWall source absAnchors []
  else []

/-- `parse_items`: strip control characters, sniff for HTML and dispatch
to the scraper, otherwise strict parse with tolerant fallback (a failed
tolerant parse prints and returns `[]`). -/
def parse_items (p : RawPayload) (source category : String) (nowWall : Int)
    (pd : String → Option PyDateTime) (toTrad : String → String) : List Item :=
  let text := removeCtrl p.text
  if sniffHtml text then scrape_html_feed p.anchors source nowWall
  else
    match p.strictEntries with
    | some es => es.map (mkItemStrict toTrad pd source category)
    | none =>
      match p.laxEntries with
      | some es => es.map (mkItemLax toTrad pd source category)
      | none => []

/-! ## Fetch & cache layer (`rss_core/fetcher.py`) -/

/-- One feed-cache entry.  `payload` holds the bytes whose base64 encoding
the source stores under `payload_b64` (the encode/decode round-trip is
modelled as the identity); `none` models an entry without that key. -/
structure FeedCacheEntry where
  payload : Option (List Nat)
  etag : String
  lastModified : String
  timestamp : Int
  deriving DecidableEq, Repr

/-- The feed cache, keyed by source URL (first binding wins, as a dict
with the most recent assignment shadowing). -/
abbrev FeedCache := List (String × FeedCacheEntry)

/-- Dict lookup. -/
def feedCacheGet (c : FeedCache) (url : String) : Option FeedCacheEntry :=
  (c.find? (fun e => e.1 = url)).map (·.2)

/-- Dict assignment. -/
def feedCachePut (c : FeedCache) (url : String) (e : FeedCacheEntry) : FeedCache :=
  (url, e) :: c

/-- Truthiness of `entry.get("payload_b64")`: the key exists and the
encoded payload is a non-empty string (the base64 encoding of `b""` is
`""`, which is falsy). -/
def entryHasPayload : Option FeedCacheEntry → Bool
  | none => false
  | some e =>
    match e.payload with
    | none => false
    | some p => ¬ p.isEmpty

/-- The bytes of the cached payload (callers guard with
`entryHasPayload`). -/
def entryPayload : Option FeedCacheEntry → List Nat
  | none => []
  | some e => e.payload.getD []

/-- The metadata dict `fetch_url` returns. -/
structure FetchMeta where
  etag : String
  lastModified : String
  timestamp : Option Int
  deriving DecidableEq, Repr

/-- The empty metadata dict `{}`. -/
def emptyMeta : FetchMeta := ⟨"", "", none⟩

/-- The metadata view of a cache entry (the source returns the entry dict
itself as the meta on cache fallback). -/
def entryMeta : Option FeedCacheEntry → FetchMeta
  | none => emptyMeta
  | some e => ⟨e.etag, e.lastModified, some e.timestamp⟩

/-- Outcome of the `urllib.request.urlopen` call for one `fetch_url`
invocation: a successful response with body and validators, an
`HTTPError` with a status code, or any other raised exception. -/
inductive NetOutcome where
  | success (body : List Nat) (etag lastModified : String)
  | httpError (code : Nat)
  | netError
  deriving DecidableEq, Repr

/-- `urllib.parse`-level URL unwrapping performed by the `Request`
constructor: strip, remove one `<...>` wrapping, remove a leading
`URL:`. -/
def unwrapUrl (s : String) : String :=
  let u := pyStrip s
  let u :=
    if strStartsWith u "<" && strEndsWith u ">" then
      pyStrip ⟨(u.data.drop 1).dropLast⟩
    else u
  if strStartsWith u "URL:" then pyStrip ⟨u.data.drop 4⟩ else u

/-- The `Request` constructor then splits off the fragment at the last
`#` and requires the rest to match `^([^/:]+):` — a non-empty scheme
before the first colon.  On failure it raises
`ValueError: unknown url type`. -/
def requestUrlOk (url : String) : Bool :=
  let u := unwrapUrl url
  let parts := splitOnStr u "#"
  let u := if parts.length ≤ 1 then u else String.intercalate "#" parts.dropLast
  let pre := u.data.takeWhile (fun c => c ≠ ':' ∧ c ≠ '/')
  ¬ pre.isEmpty ∧ (u.data.drop pre.length).head? = some ':'

/-- `Fetcher.fetch_url` (lines 33-98).  The `Request` construction on
line 59 sits outside the `try` block, so its `ValueError` propagates to
the caller; every failure inside the `try` is either the `HTTPError`
branch or the generic fallback.  `tNow` models `time.time()`. -/
def fetch_url (cache : FeedCache) (url : String) (net : NetOutcome)
    (tNow : Int) : Except String ((List Nat × FetchMeta) × FeedCache) :=
  let entry := feedCacheGet cache url
  if ¬ requestUrlOk url then
    .error "ValueError: unknown url type"
  else
    match net with
    | .success body etag lastModified =>
      let meta : FetchMeta := ⟨etag, lastModified, some tNow⟩
      let cache' := feedCachePut cache url ⟨some body, etag, lastModified, tNow⟩
      .ok ((body, meta), cache')
    | .httpError code =>
      if code = 304 ∧ entryHasPayload entry then
        .ok ((entryPayload entry, entryMeta entry), cache)
      else if entryHasPayload entry then
        .ok ((entryPayload entry, entryMeta entry), cache)
      else
        .ok (([], emptyMeta), cache)
    | .netError =>
      if entryHasPayload entry then
        .ok ((entryPayload entry, entryMeta entry), cache)
      else
        .ok (([], emptyMeta), cache)

/-- The stale-or-empty result the spec describes for a failed fetch:
last cached payload with its entry as metadata when one exists, otherwise
empty payload with empty metadata. -/
def fallbackResult (cache : FeedCache) (url : String) : List Nat × FetchMeta :=
  let entry := feedCacheGet cache url
  if entryHasPayload entry then (entryPayload entry, entryMeta entry)
  else ([], emptyMeta)

/-! ### `Fetcher.download_image` (lines 110-189) -/

/-- Key normalization of line 118:
`url.split("#")[0].split("?")[0]`. -/
def normalizedImageKey (url : String) : String :=
  ⟨(url.data.takeWhile (fun c => c ≠ '#')).takeWhile (fun c => c ≠ '?')⟩

/-- Format classification from leading bytes (lines 164-167). -/
def imageExt (data : List Nat) : String :=
  if [0x89, 0x50, 0x4E, 0x47].isPrefixOf data then ".png"
  else if [0x47, 0x49, 0x46].isPrefixOf data then ".gif"
  else if listContainsSubBytes (data.take 16) [0x57, 0x45, 0x42, 0x50] then ".webp"
  else ".jpg"
where
  /-- Contiguous byte-substring test (`b"WEBP" in data[:16]`). -/
  listContainsSubBytes (l pat : List Nat) : Bool :=
    match l with
    | [] => pat.isPrefixOf ([] : List Nat)
    | _ :: rest => pat.isPrefixOf l || listContainsSubBytes rest pat

/-! ### SHA-1 (model of `hashlib.sha1(...).hexdigest()`), over `Nat` with
explicit reduction modulo 2^32. -/

/-- Truncate to 32 bits. -/
def w32 (n : Nat) : Nat := n % 4294967296

/-- 32-bit complement (arguments are kept < 2^32). -/
def wnot (n : Nat) : Nat := 4294967295 - w32 n

/-- 32-bit left rotation. -/
def rotl32 (k x : Nat) : Nat :=
  Nat.lor (w32 (x <<< k)) (w32 x >>> (32 - k))

/-- UTF-8 encoding of one code point (model of `str.encode("utf-8")`). -/
def utf8EncodeChar (c : Char) : List Nat :=
  let n := c.toNat
  if n < 128 then [n]
  else if n < 2048 then [192 + n / 64, 128 + n % 64]
  else if n < 65536 then [224 + n / 4096, 128 + (n / 64) % 64, 128 + n % 64]
  else [240 + n / 262144, 128 + (n / 4096) % 64, 128 + (n / 64) % 64, 128 + n % 64]

/-- UTF-8 encoding of a string as a byte list. -/
def utf8Encode (s : String) : List Nat :=
  (s.data.map utf8EncodeChar).flatten

/-- Big-endian 8-byte encoding. -/
def be64 (n : Nat) : List Nat :=
  (List.range 8).map (fun i => (n >>> ((7 - i) * 8)) % 256)

/-- SHA-1 message padding. -/
def sha1Pad (msg : List Nat) : List Nat :=
  let len := msg.length
  let k := (119 - len % 64) % 64
  msg ++ [128] ++ List.replicate k 0 ++ be64 (len * 8)

/-- Split into 64-byte chunks (`fuel` bounds the recursion and is always
supplied larger than the input). -/
def chunks64Aux : Nat → List Nat → List (List Nat)
  | 0, _ => []
  | fuel + 1, l =>
    if l.isEmpty then []
    else l.take 64 :: chunks64Aux fuel (l.drop 64)

/-- `chunks64Aux` with sufficient fuel. -/
def chunks64 (l : List Nat) : List (List Nat) :=
  chunks64Aux (l.length + 1) l

/-- Big-endian 32-bit word at word index `i` of a chunk. -/
def word32At (chunk : List Nat) (i : Nat) : Nat :=
  16777216 * chunk.getD (4 * i) 0 + 65536 * chunk.getD (4 * i + 1) 0 +
  256 * chunk.getD (4 * i + 2) 0 + chunk.getD (4 * i + 3) 0

/-- Extend the 16 schedule words to 80. -/
def sha1Extend (ws : List Nat) : Nat → List Nat
  | 0 => ws
  | n + 1 =>
    let i := ws.length
    let v := rotl32 1 (Nat.xor (Nat.xor (ws.getD (i - 3) 0) (ws.getD (i - 8) 0))
      (Nat.xor (ws.getD (i - 14) 0) (ws.getD (i - 16) 0)))
    sha1Extend (ws ++ [v]) n

/-- One SHA-1 round. -/
def sha1Round (st : Nat × Nat × Nat × Nat × Nat) (iw : Nat × Nat) :
    Nat × Nat × Nat × Nat × Nat :=
  let a := st.1; let b := st.2.1; let c := st.2.2.1
  let d := st.2.2.2.1; let e := st.2.2.2.2
  let i := iw.1; let w := iw.2
  let f :=
    if i < 20 then Nat.lor (Nat.land b c) (Nat.land (wnot b) d)
    else if i < 40 then Nat.xor (Nat.xor b c) d
    else if i < 60 then
      Nat.lor (Nat.lor (Nat.land b c) (Nat.land b d)) (Nat.land c d)
    else Nat.xor (Nat.xor b c) d
  let kc :=
    if i < 20 then 1518500249
    else if i < 40 then 1859775393
    else if i < 60 then 2400959708
    else 3395469782
  let temp := w32 (rotl32 5 a + f + e + kc + w)
  (temp, a, rotl32 30 b, c, d)

/-- Process one 64-byte chunk. -/
def sha1Chunk (h : Nat × Nat × Nat × Nat × Nat) (chunk : List Nat) :
    Nat × Nat × Nat × Nat × Nat :=
  let ws := sha1Extend ((List.range 16).map (word32At chunk)) 64
  let st := ((List.range 80).zip ws).foldl sha1Round h
  (w32 (h.1 + st.1), w32 (h.2.1 + st.2.1), w32 (h.2.2.1 + st.2.2.1),
   w32 (h.2.2.2.1 + st.2.2.2.1), w32 (h.2.2.2.2 + st.2.2.2.2))

/-- Lower-case hex digit. -/
def hexDigit (n : Nat) : Char :=
  if n < 10 then Char.ofNat (48 + n) else Char.ofNat (87 + n)

/-- Eight-digit hex of a 32-bit word. -/
def hex32 (n : Nat) : List Char :=
  (List.range 8).map (fun i => hexDigit ((n >>> ((7 - i) * 4)) % 16))

/-- `hashlib.sha1(msg).hexdigest()`. -/
def sha1Hex (msg : List Nat) : String :=
  let init : Nat × Nat × Nat × Nat × Nat :=
    (1732584193, 4023233417, 2562383102, 271733878, 3285377520)
  let h := (chunks64 (sha1Pad msg)).foldl sha1Chunk init
  ⟨hex32 h.1 ++ hex32 h.2.1 ++ hex32 h.2.2.1 ++ hex32 h.2.2.2.1 ++
   hex32 h.2.2.2.2⟩

/-- `hashlib.sha1(key.encode("utf-8")).hexdigest()[:16]` (line 169). -/
def sha1Hex16 (s : String) : String :=
  ⟨(sha1Hex (utf8Encode s)).data.take 16⟩

/-- The stored filename `f"{hash_name}{ext}"` of lines 164-170. -/
def storedImageFilename (url : String) (data : List Nat) : String :=
  sha1Hex16 (normalizedImageKey url) ++ imageExt data

/-- One image-cache entry (path, timestamp, url). -/
structure ImageCacheEntry where
  path : String
  timestamp : Int
  url : String
  deriving DecidableEq, Repr

/-- The image cache, keyed by normalized image URL. -/
abbrev ImageCache := List (String × ImageCacheEntry)

/-- `config.IMAGE_CACHE_TTL` in seconds. -/
def IMAGE_CACHE_TTL : Int := 24 * 60 * 60

/-- Referer selection of lines 134-144. -/
def chooseReferer (url : String) (referer : Option String) : String :=
  let site_ref :=
    if strContains url "pk.on.cc" || strContains url "on.cc" then "https://hk.on.cc/"
    else if strContains url "mingpao.com" then "https://news.mingpao.com/"
    else if strContains url "hk01.com" then "https://www.hk01.com/"
    else ""
  match referer with
  | some r => if r ≠ "" then r else
      if site_ref ≠ "" then site_ref else urljoinModel.hostPart url ++ "/"
  | none =>
    if site_ref ≠ "" then site_ref else urljoinModel.hostPart url ++ "/"

/-- `Fetcher.download_image`.  `cachedFileExists` models the
`os.path.exists` check on the cached file; `net` is the body returned by
`urlopen` (`none` models a raised exception, covering the whole download
block); `now` models `time.time()`. -/
def download_image (cache : ImageCache) (url : String)
    (_referer : Option String) (now : Int) (cachedFileExists : Bool)
    (net : Option (List Nat)) : String × ImageCache :=
  if url = "" then ("", cache)
  else
    let key := normalizedImageKey url
    let entry := (cache.find? (fun e => e.1 = key)).map (·.2)
    let cachedPath := (entry.map (·.path)).getD ""
    let cachedTs := (entry.map (·.timestamp)).getD 0
    if cachedPath ≠ "" ∧ now - cachedTs ≤ IMAGE_CACHE_TTL ∧ cachedFileExists then
      (cachedPath, cache)
    else
      match net with
      | none => ("", cache)
      | some data =>
        if data.isEmpty then ("", cache)
        else
          let filename := storedImageFilename url data
          (filename, (key, ⟨filename, now, url⟩) :: cache)

/-! ## Per-record enrichment (`build.py` lines 132-199) -/

/-- One full-text cache entry (`{"content": ..., "images": ..., "ts": ...}`). -/
structure FulltextEntry where
  content : String
  images : List String
  ts : Int
  deriving DecidableEq, Repr

/-- The full-text cache, keyed by record link. -/
abbrev FulltextCache := List (String × FulltextEntry)

/-- Dict lookup. -/
def fulltextGet (c : FulltextCache) (link : String) : Option FulltextEntry :=
  (c.find? (fun e => e.1 = link)).map (·.2)

/-- Dict assignment. -/
def fulltextPut (c : FulltextCache) (link : String) (e : FulltextEntry) :
    FulltextCache :=
  (link, e) :: c

/-- The collaborators `enrich_job` drives, as oracles: the page fetch for
a link (the payload bytes `fetch_url` returns, `[]` for a failed or empty
fetch), the lossy UTF-8 decoding, and the origin parser's `parse` /
`clean_html` (`rss_core/parser.py`), returning
`(content_html, main_image, all_images)`. -/
structure EnrichEnv where
  fetchPage : String → List Nat
  decodeU8 : List Nat → String
  parseContent : String → String → String × String × List String
  cleanContent : String → String → String

/-- `enrich_job`: on a cache hit (any entry under the link) reuse the
cached content when non-empty and do nothing else; on a miss fetch the
page, parse, clean, update the record's content and hero image, and write
the cache entry.  The returned `Nat` counts `fetch_url` network calls
made for this record; `ts` models `int(time.time())`. -/
def enrich_job (env : EnrichEnv) (cache : FulltextCache) (ts : Int)
    (item : Item) : Item × FulltextCache × Nat :=
  match fulltextGet cache item.link with
  | some cached =>
    let item :=
      if cached.content ≠ "" then { item with content_html := cached.content }
      else item
    (item, cache, 0)
  | none =>
    let page_src := env.fetchPage item.link
    if page_src.isEmpty then (item, cache, 1)
    else
      let html_text := env.decodeU8 page_src
      let parsed := env.parseContent html_text item.link
      let c_html := env.cleanContent parsed.1 item.link
      let item :=
        if c_html ≠ "" then { item with content_html := c_html } else item
      let item :=
        if parsed.2.1 ≠ "" then { item with rss_image := parsed.2.1 } else item
      (item, fulltextPut cache item.link ⟨c_html, parsed.2.2, ts⟩, 1)

/-! ## Cache persistence (`utils.save_json`, lines 157-164)

The docstring says "Saves data to a JSON file safely" and the function
computes `tmp_path = path + ".tmp"` — but then opens `path` itself with
mode `"w"` (truncating it) and streams `json.dump` into it; `tmp_path` is
never used and there is no rename.  The model tracks the on-disk contents
of the target path and of the tmp path. -/

/-- Outcome of `json.dump(data, f, ...)` into an already-truncated file:
either the full serialized text is written, or serialization raises after
a prefix has been flushed. -/
inductive SerOutcome where
  | ok (s : String)
  | failPartial (prefixWritten : String)
  deriving DecidableEq, Repr

set_option linter.unusedVariables false in
/-- `utils.save_json`: state of `(path contents, tmp_path contents)`
before and after.  `open(path, "w")` truncates the target immediately;
on a serialization failure the partial prefix is what remains; the tmp
path is never touched. -/
def save_json (pathContents tmpContents : Option String)
    (out : SerOutcome) : Option String × Option String :=
  match out with
  | .ok s => (some s, tmpContents)
  | .failPartial p => (some p, tmpContents)

/-! ## Sanitization pipeline (`rss_core/html_cleaner.py`)

`clean_html_fragment` parses the fragment with
`lxml.html.fragment_fromstring(fragment, create_parent="div")` — which
always wraps the parsed nodes in a freshly created `div` — runs its
cleaning passes, and returns `lxml.html.tostring(root)` of that wrapper.

The model below covers the origin-independent passes: script/style-class
element removal, `ad`/`gallery-*` removal, the hero-image body dedup, the
boilerplate class removal (the non-mingpao branch), the image `src`
resolution pass, the anchor normalization pass (with `fetcher=None`, so
the image-localization pass is skipped), and the final empty-element
prune.  The origin-specific branches (`stheadline.com`, `rthk.hk`,
`mingpao.com`, `unwire.hk`, `cnbeta`, `hk01.com`) are not modelled; every
theorem about this function restricts `base_url` with `genericOrigin`.

`parseFragmentNodes` models the lxml parse on a well-formed fragment
subset (properly nested tags, double-quoted attributes, no entities); a
fragment outside that subset maps to `none` and `clean_html_fragment`
returns it unchanged, exactly as the source's `except` branch does for
unparsable content.  Theorems only ever apply the function to fragments
inside the subset. -/

mutual
/-- An HTML node: element with attributes and children, or a text node.
Text between elements is represented as separate `text` children.
(`HForest` is a child list; the mutual inductive keeps every tree
function structurally recursive.) -/
inductive HNode where
  | elem (tag : String) (attrs : List (String × String)) (children : HForest)
  | text (s : String)

/-- A list of sibling HTML nodes. -/
inductive HForest where
  | nil
  | cons (head : HNode) (tail : HForest)
end

/-- Forest append (where `drop_tag` splices children in place). -/
def happ : HForest → HForest → HForest
  | .nil, g => g
  | .cons n f, g => .cons n (happ f g)

/-- HTML void tags (serialized without a closing tag). -/
def voidTags : List String :=
  ["area", "base", "br", "col", "embed", "hr", "img", "input", "link",
   "meta", "param", "source", "track", "wbr"]

/-- Escaping of text content in serialization. -/
def escText (s : String) : String :=
  ⟨s.data.flatMap (fun c =>
    if c = '&' then "&amp;".data
    else if c = '<' then "&lt;".data
    else if c = '>' then "&gt;".data
    else [c])⟩

/-- Serialization of an attribute list. -/
def serializeAttrs (attrs : List (String × String)) : String :=
  attrs.foldl (fun acc kv => acc ++ " " ++ kv.1 ++ "=" ++ ⟨[dq]⟩ ++ kv.2 ++ ⟨[dq]⟩) ""

mutual
/-- Model of `lxml.html.tostring` on one node. -/
def serializeNode : HNode → String
  | .text s => escText s
  | .elem tag attrs children =>
    "<" ++ tag ++ serializeAttrs attrs ++ ">" ++ serializeForest children ++
    (if voidTags.contains tag then "" else "</" ++ tag ++ ">")

/-- Serialization of a forest. -/
def serializeForest : HForest → String
  | .nil => ""
  | .cons n ns => serializeNode n ++ serializeForest ns
end

/-- Characters allowed in modelled tag and attribute names. -/
def isNameChar (c : Char) : Bool :=
  c.isAlpha ∨ c.isDigit ∨ c = '-' ∨ c = '_'

mutual
/-- Parse a node sequence until the input ends or a close tag starts
(fuel-driven; the fuel is sized so it never runs out on inputs the parser
accepts). -/
def parseNodesAux : Nat → List Char → Option (HForest × List Char)
  | 0, _ => none
  | _ + 1, [] => some (.nil, [])
  | fuel + 1, c :: rest =>
    if c = '<' then
      if rest.head? = some '/' then some (.nil, c :: rest)
      else
        match parseElemAux fuel (c :: rest) with
        | none => none
        | some (n, rem) =>
          match parseNodesAux fuel rem with
          | none => none
          | some (ns, rem2) => some (.cons n ns, rem2)
    else
      let txt := (c :: rest).takeWhile (fun ch => ch ≠ '<')
      if txt.contains '&' then none
      else
        match parseNodesAux fuel ((c :: rest).drop txt.length) with
        | none => none
        | some (ns, rem) => some (.cons (.text ⟨txt⟩) ns, rem)

/-- Parse one element starting at `<`. -/
def parseElemAux : Nat → List Char → Option (HNode × List Char)
  | 0, _ => none
  | fuel + 1, l =>
    match l with
    | '<' :: rest =>
      let name := rest.takeWhile isNameChar
      if name.isEmpty then none
      else
        match parseAttrsAux fuel (rest.drop name.length) with
        | none => none
        | some (attrs, rem) =>
          match rem with
          | '/' :: '>' :: rem2 => some (.elem ⟨name⟩ attrs .nil, rem2)
          | '>' :: rem2 =>
            if voidTags.contains ⟨name⟩ then some (.elem ⟨name⟩ attrs .nil, rem2)
            else
              match parseNodesAux fuel rem2 with
              | none => none
              | some (children, rem3) =>
                match rem3 with
                | '<' :: '/' :: r4 =>
                  if (name ++ ['>']).isPrefixOf r4 then
                    some (.elem ⟨name⟩ attrs children, r4.drop (name.length + 1))
                  else none
                | _ => none
          | _ => none
    | _ => none

/-- Parse a space-separated attribute list with double-quoted values. -/
def parseAttrsAux : Nat → List Char → Option (List (String × String) × List Char)
  | 0, _ => none
  | fuel + 1, l =>
    let l1 := l.dropWhile (fun c => c = ' ')
    match l1 with
    | '>' :: _ => some ([], l1)
    | '/' :: _ => some ([], l1)
    | _ =>
      let nm := l1.takeWhile isNameChar
      if nm.isEmpty then none
      else
        match l1.drop nm.length with
        | '=' :: q :: rest =>
          if q = dq then
            let v := rest.takeWhile (fun ch => ch ≠ dq ∧ ch ≠ '<' ∧ ch ≠ '&')
            if v.length < rest.length then
              match parseAttrsAux fuel (rest.drop (v.length + 1)) with
              | none => none
              | some (as, rem) => some ((⟨nm⟩, ⟨v⟩) :: as, rem)
            else none
          else none
        | _ => none
end

/-- Parse a whole fragment into a forest (model of the lxml fragment
parse on the well-formed subset; `none` = outside the subset). -/
def parseFragmentNodes (fragment : String) : Option HForest :=
  let fuel := (fragment.data.length + 2) * (fragment.data.length + 2)
  match parseNodesAux fuel fragment.data with
  | some (ns, []) => some ns
  | _ => none

/-- Attribute lookup (`elem.get(name)`). -/
def attrGet (attrs : List (String × String)) (name : String) : Option String :=
  (attrs.find? (fun kv => kv.1 = name)).map (·.2)

/-- Attribute update (`elem.set(name, value)`): replace in place, append
if absent. -/
def attrSet (attrs : List (String × String)) (name value : String) :
    List (String × String) :=
  if (attrs.find? (fun kv => kv.1 = name)).isSome then
    attrs.map (fun kv => if kv.1 = name then (kv.1, value) else kv)
  else attrs ++ [(name, value)]

mutual
/-- Remove every descendant element matching `p` (subtree and all), the
common shape of the cleaner's removal passes. -/
def removeElemsByN (p : HNode → Bool) : HNode → HNode
  | .text s => .text s
  | .elem t a ch => .elem t a (removeElemsByF p ch)

/-- Forest version of `removeElemsByN`. -/
def removeElemsByF (p : HNode → Bool) : HForest → HForest
  | .nil => .nil
  | .cons n ns =>
    if p n then removeElemsByF p ns
    else .cons (removeElemsByN p n) (removeElemsByF p ns)
end

/-- Line 105: `.//script | .//style | .//noscript | .//video | .//iframe
| .//button`. -/
def scriptLikePred (n : HNode) : Bool :=
  match n with
  | .elem t _ _ =>
    t = "script" ∨ t = "style" ∨ t = "noscript" ∨ t = "video" ∨
    t = "iframe" ∨ t = "button"
  | .text _ => false

/-- Line 111 (the non-stheadline branch): `.//ad` and tags starting with
`gallery-`. -/
def adGalleryPred (n : HNode) : Bool :=
  match n with
  | .elem t _ _ => t = "ad" ∨ strStartsWith t "gallery-"
  | .text _ => false

/-- Lines 149-153 (the non-mingpao branch): elements whose `class`
attribute contains one of the boilerplate keys. -/
def classKeyPred (n : HNode) : Bool :=
  match n with
  | .elem _ a _ =>
    let cls := (attrGet a "class").getD ""
    strContains cls "related" ∨ strContains cls "keyword" ∨
    strContains cls "share" ∨ strContains cls "social" ∨
    strContains cls "breadcrumb"
  | .text _ => false

/-- `src.split('/')[-1].split('?')[0].lower()` (lines 116 and 120). -/
def fnameOf (s : String) : String :=
  pyLower ⟨((splitOnStr s "/").getLastD "").data.takeWhile (fun c => c ≠ '?')⟩

/-- Filename of an `img` element's `src` (absent attribute reads ""). -/
def imgFnameOf (a : List (String × String)) : String :=
  fnameOf ((attrGet a "src").getD "")

/-- Drop the first `img` (document order) whose `src` filename equals
`fname`; the `Bool` reports whether a drop happened (the loop breaks
after one). -/
def heroDropForest (fname : String) : HForest → HForest × Bool
  | .nil => (.nil, false)
  | .cons (.text s) ns =>
    let rn := heroDropForest fname ns
    (.cons (.text s) rn.1, rn.2)
  | .cons (.elem t a ch) ns =>
    if t = "img" ∧ imgFnameOf a = fname then (ns, true)
    else
      let rc := heroDropForest fname ch
      if rc.2 then (.cons (.elem t a rc.1) ns, true)
      else
        let rn := heroDropForest fname ns
        (.cons (.elem t a ch) rn.1, rn.2)

/-- Lines 115-123: the hero-image body dedup, gated on a non-trivial hero
filename. -/
def heroPass (hero_img : Option String) (ch : HForest) : HForest :=
  match hero_img with
  | none => ch
  | some h =>
    if h = "" then ch
    else
      let hf := fnameOf h
      if hf ≠ "" ∧ hf.length > 5 then (heroDropForest hf ch).1 else ch

/-- The placeholder keys of line 295. -/
def placeholderKeys : List String :=
  ["grey.gif", "blank.gif", "placeholder", "transparent.gif"]

/-- `srcset.split(",")[0].strip().split(" ")[0]` (line 302). -/
def firstSrcsetUrl (s : String) : String :=
  ⟨(pyStrip ⟨s.data.takeWhile (fun c => c ≠ ',')⟩).data.takeWhile
    (fun c => c ≠ ' ')⟩

/-- Lines 291-307: per-`img` source resolution — blank placeholder and
generic sources, fall back to (data-)srcset then data-src/data-original,
and rewrite `src` to the resolved absolute URL when one was found. -/
def imgSrcAttrs (base : String) (a : List (String × String)) :
    List (String × String) :=
  let src0 := (attrGet a "src").getD ""
  let src1 :=
    if src0 ≠ "" then
      let ph := pyLower (pyStrip src0)
      if placeholderKeys.any (fun k => strContains ph k) then ""
      else if is_generic_image src0 (some base) then ""
      else src0
    else src0
  let src2 :=
    if src1 = "" then
      let ss :=
        if (attrGet a "srcset").getD "" ≠ "" then (attrGet a "srcset").getD ""
        else (attrGet a "data-srcset").getD ""
      if ss ≠ "" then firstSrcsetUrl ss else src1
    else src1
  let src3 :=
    if src2 = "" then
      if (attrGet a "data-src").getD "" ≠ "" then (attrGet a "data-src").getD ""
      else (attrGet a "data-original").getD ""
    else src2
  if src3 ≠ "" then attrSet a "src" (normalize_image_url base src3) else a

mutual
/-- Apply the image-source pass to a node. -/
def imgSrcNode (base : String) : HNode → HNode
  | .text s => .text s
  | .elem t a ch =>
    if t = "img" then .elem t (imgSrcAttrs base a) (imgSrcForest base ch)
    else .elem t a (imgSrcForest base ch)

/-- Forest version of `imgSrcNode`. -/
def imgSrcForest (base : String) : HForest → HForest
  | .nil => .nil
  | .cons n ns => .cons (imgSrcNode base n) (imgSrcForest base ns)
end

mutual
/-- Lines 374-381: every `a[@href]` gets its href resolved; a non-http(s)
result unwraps the anchor into its children (`drop_tag`), otherwise the
href is rewritten and `target`/`rel` are set. -/
def anchorNode (base : String) : HNode → HForest
  | .text s => .cons (.text s) .nil
  | .elem t a ch =>
    let ch2 := anchorForest base ch
    if t = "a" ∧ (attrGet a "href").isSome then
      let href := normalize_image_url base ((attrGet a "href").getD "")
      if ¬ (strStartsWith href "http://" ∨ strStartsWith href "https://") then ch2
      else
        .cons (.elem t (attrSet (attrSet (attrSet a "href" href) "target"
          "_blank") "rel" "noopener") ch2) .nil
    else .cons (.elem t a ch2) .nil

/-- Forest version of `anchorNode`. -/
def anchorForest (base : String) : HForest → HForest
  | .nil => .nil
  | .cons n ns => happ (anchorNode base n) (anchorForest base ns)
end

mutual
/-- Lines 541-545: one snapshot pass dropping elements that had no child
nodes (text or element) in the input tree, except `img` and `br`. -/
def pruneNode : HNode → HNode
  | .text s => .text s
  | .elem t a ch => .elem t a (pruneForest ch)

/-- Forest version of `pruneNode`. -/
def pruneForest : HForest → HForest
  | .nil => .nil
  | .cons (.elem t a .nil) ns =>
    if t = "img" ∨ t = "br" then .cons (.elem t a .nil) (pruneForest ns)
    else pruneForest ns
  | .cons (.elem t a ch) ns => .cons (.elem t a (pruneForest ch)) (pruneForest ns)
  | .cons (.text s) ns => .cons (.text s) (pruneForest ns)
end

/-- `base_url` reaches none of the origin-specific branches of
`clean_html_fragment` (`stheadline.com`, `rthk.hk`, `unwire.hk`,
`hk01.com`, `mingpao.com`, lowercased `cnbeta`). -/
def genericOrigin (base : String) : Bool :=
  ¬ (strContains base "stheadline.com" ∨ strContains base "rthk.hk" ∨
     strContains base "mingpao.com" ∨ strContains base "unwire.hk" ∨
     strContains (pyLower base) "cnbeta" ∨ strContains base "hk01.com")

/-- The cleaning passes of `clean_html_fragment` on the wrapper root, for
a generic origin and `fetcher=None` (no image localization), in source
order. -/
def applyPasses (base : String) (hero_img : Option String) : HNode → HNode
  | .text s => .text s
  | .elem t a ch =>
    let ch := removeElemsByF scriptLikePred ch
    let ch := removeElemsByF adGalleryPred ch
    let ch := heroPass hero_img ch
    let ch := removeElemsByF classKeyPred ch
    let ch := imgSrcForest base ch
    let ch := anchorForest base ch
    let ch := pruneForest ch
    .elem t a ch

/-- `clean_html_fragment(fragment, base_url, fetcher=None, hero_img=...)`:
empty input stays empty; the fragment is parsed with a freshly created
`div` parent, cleaned, and serialized — so the returned markup always
carries that wrapper `div`; anything unparsable comes back unchanged
(the `except` branch). -/
def clean_html_fragment (fragment base_url : String)
    (hero_img : Option String) : String :=
  if fragment = "" then ""
  else
    match parseFragmentNodes fragment with
    | none => fragment
    | some ns =>
      serializeNode (applyPasses base_url hero_img (.elem "div" [] ns))

/-! ## Derived predicates used in the statements -/

/-- An item that survives the orchestrator's timestamp filter: it has a
timestamp and, normalized to Hong Kong, is not strictly before the
cutoff. -/
def validItem (cutoff : Int) (i : Item) : Bool :=
  match i.pub_dt with
  | none => false
  | some dt => decide (cutoff ≤ instantHK (normalizeToHK dt))

/-- The first timestamp-valid occurrence of link `l` in a raw item
list. -/
def firstValidWithLink (cutoff : Int) (l : String) : List Item → Option Item
  | [] => none
  | i :: rest =>
    if i.link = l ∧ validItem cutoff i = true then some i
    else firstValidWithLink cutoff l rest

/-- The timestamp normalization the filter applies to a retained item. -/
def retainItem (i : Item) : Item :=
  { i with pub_dt := i.pub_dt.map normalizeToHK }

/-- A link string that `normalize_link` passes through unchanged: an
absolute http(s) URL containing none of the characters that trigger an
unescape, strip, or split. -/
def cleanAbsUrl (s : String) : Bool :=
  (strStartsWith s "http://" || strStartsWith s "https://") &&
  s.data.all (fun c =>
    ¬ (c = '&' ∨ c = '<' ∨ c = dq ∨ c = ' ' ∨ isPyWs c))

/-! ## Theorems -/

/-- C8: persisting a cache store is claimed to be atomic, but `save_json`
opens the target path itself with mode "w" (truncating it) and streams
into it — the `tmp_path` it computes is never written and never renamed.
At this input the path held the JSON text "[1, 2]" and serialization
fails after flushing the prefix "[1,": the previous contents are
destroyed and the tmp path untouched, contradicting the claimed
leave-unchanged-on-failure behavior. -/
theorem c8_save_json_not_atomic :
    save_json (some "[1, 2]") none (.failPartial "[1,") = (some "[1,", none) ∧
    (save_json (some "[1, 2]") none (.failPartial "[1,")).1 ≠ some "[1, 2]" ∧
    (save_json (some "[1, 2]") none (.failPartial "[1,")).2 = none := by
  refine ⟨rfl, by decide, rfl⟩

/-- An HK01 listing payload that sniffs as HTML and carries one anchor
matching the article-URL shape with an ample title. -/
def hk01ListingPayload : RawPayload :=
  { text := "<!DOCTYPE html><html><body>listing</body></html>",
    anchors := [⟨some "/article/20260118/story", none, "A headline long enough"⟩],
    strictEntries := none,
    laxEntries := none }

/-- C3: the payload sniffs as HTML and the single anchor matches the HK01
article shape with a long-enough title, yet `parse_items` returns no
records: the `Item(...)` call in `scrape_html_feed` omits the dataclass's
required `category` and `summary` arguments, so construction raises
`TypeError`, the scraper's `except` swallows it, and the claimed
synthesized Records never exist (the earlier revision kept under
`backups/backup_20260118_0817` passed `category=""` and `summary=""`
here). -/
theorem c3_html_scraper_yields_no_records :
    sniffHtml (removeCtrl hk01ListingPayload.text) = true ∧
    hk01ListingPayload.anchors
      = [⟨some "/article/20260118/story", none, "A headline long enough"⟩] ∧
    strContains (urljoinModel "https://www.hk01.com" "/article/20260118/story")
      "/article/" = true ∧
    5 ≤ (pyStrip "A headline long enough").length ∧
    (∀ title link pub_dt pub_text source rss_image,
      itemInit title link pub_dt pub_text source none none rss_image
        = .error "TypeError: __init__ missing required arguments category/summary") ∧
    parse_items hk01ListingPayload "https://www.hk01.com/latest" "" 12345
      (fun _ => none) id = [] := by
  refine ⟨by decide, rfl, by decide, by decide, fun _ _ _ _ _ _ => rfl, by decide⟩

/-- C5: sanitization is not idempotent — each application wraps the
content in one more container `div` (`fragment_fromstring(...,
create_parent="div")` followed by `tostring`), so sanitizing the
sanitizer's own output differs from that output. -/
theorem c5_sanitize_not_idempotent :
    genericOrigin "https://news.example.com/a" = true ∧
    clean_html_fragment
        (clean_html_fragment "<p>hello</p>" "https://news.example.com/a" none)
        "https://news.example.com/a" none
      ≠ clean_html_fragment "<p>hello</p>" "https://news.example.com/a" none := by
  refine ⟨by decide, by decide⟩

set_option linter.unusedVariables false in
/-- C5 (amended): sanitizing already-sanitized content again performs no
further removals or rewrites, but returns it wrapped in one additional
`div`: for a generic origin, when the first output parses back to the
tree it serializes from and the cleaning passes fix that tree, the second
application returns exactly the first output inside one new wrapper. -/
theorem c5_second_sanitize_wraps_div (x y base : String) (hero : Option String)
    (ns : HForest)
    (hbase : genericOrigin base = true)
    (hx : clean_html_fragment x base hero = y)
    (hy : y ≠ "")
    (hparse : parseFragmentNodes y = some ns)
    (hser : serializeForest ns = y)
    (hfix : applyPasses base hero (HNode.elem "div" [] ns)
      = HNode.elem "div" [] ns) :
    clean_html_fragment y base hero = "<div>" ++ y ++ "</div>" := by
  unfold clean_html_fragment
  rw [if_neg hy, hparse]
  show serializeNode (applyPasses base hero (HNode.elem "div" [] ns)) = _
  rw [hfix, serializeNode, hser]
  rfl

/-- Witness for `c5_second_sanitize_wraps_div` at the fragment
`<p>hello</p>`. -/
theorem c5_second_sanitize_wraps_div_witness :
    clean_html_fragment "<div><p>hello</p></div>" "https://news.example.com/a"
        none
      = "<div>" ++ "<div><p>hello</p></div>" ++ "</div>" :=
  c5_second_sanitize_wraps_div "<p>hello</p>" "<div><p>hello</p></div>"
    "https://news.example.com/a" none
    (.cons (.elem "div" []
      (.cons (.elem "p" [] (.cons (.text "hello") .nil)) .nil)) .nil)
    (by decide) (by decide) (by decide) rfl rfl rfl

/-- C6 (amended): a full-text cache hit with non-empty content reuses the
cached content for the record, makes zero network calls, and leaves the
cache unchanged — but the hero image is not read from the cache (entries
store only content/images/ts), so the record keeps whatever image the
decoder supplied. -/
theorem c6_cache_hit_reuses_content (env : EnrichEnv) (cache : FulltextCache)
    (ts : Int) (item : Item) (e : FulltextEntry)
    (hhit : fulltextGet cache item.link = some e)
    (hne : e.content ≠ "") :
    enrich_job env cache ts item
      = ({ item with content_html := e.content }, cache, 0) := by
  unfold enrich_job
  rw [hhit]
  simp [hne]

/-- The enrichment environment of the C6 counterexample: the page at the
link parses to content with a hero image. -/
def c6Env : EnrichEnv :=
  { fetchPage := fun l => if l = "https://ex.com/art" then [120] else [],
    decodeU8 := fun b => if b = [120] then "x" else "",
    parseContent := fun h l =>
      if h = "x" ∧ l = "https://ex.com/art" then
        ("<p>a</p>", "https://img.ex.com/hero.jpg", ["https://img.ex.com/hero.jpg"])
      else ("", "", []),
    cleanContent := fun c _ => c }

/-- The record of the C6 counterexample (no decoder-supplied image). -/
def c6Item : Item :=
  { title := "t", link := "https://ex.com/art", pub_dt := none, pub_text := "",
    source := "s", category := "", summary := "", rss_image := "" }

/-- C6: the first (cache-miss) run extracts a hero image and writes a
cache entry with non-empty content; the second run hits that entry with
zero fetches — but its hero image is the decoder-supplied one (empty),
not the previous run's extracted hero, because the cache stores no hero
image.  This falsifies "reuses the cached content and hero image ... and
produces the same content/hero-image as the previous run". -/
theorem c6_hero_not_cached_counterexample :
    (enrich_job c6Env [] 5 c6Item).1.rss_image = "https://img.ex.com/hero.jpg" ∧
    (fulltextGet (enrich_job c6Env [] 5 c6Item).2.1 c6Item.link).map
      FulltextEntry.content = some "<p>a</p>" ∧
    (enrich_job c6Env (enrich_job c6Env [] 5 c6Item).2.1 6 c6Item).2.2 = 0 ∧
    (enrich_job c6Env (enrich_job c6Env [] 5 c6Item).2.1 6 c6Item).1.rss_image
      ≠ (enrich_job c6Env [] 5 c6Item).1.rss_image := by
  refine ⟨rfl, rfl, rfl, by decide⟩

/-- Witness for `c6_cache_hit_reuses_content`. -/
theorem c6_cache_hit_reuses_content_witness :
    enrich_job c6Env [("https://ex.com/art", ⟨"<p>a</p>", [], 5⟩)] 6 c6Item
      = ({ c6Item with content_html := "<p>a</p>" },
         [("https://ex.com/art", ⟨"<p>a</p>", [], 5⟩)], 0) :=
  c6_cache_hit_reuses_content c6Env
    [("https://ex.com/art", ⟨"<p>a</p>", [], 5⟩)] 6 c6Item
    ⟨"<p>a</p>", [], 5⟩ (by decide) (by decide)

/-- The C1 counterexample record: its publish instant is one hour after
"now" (= 1000000, as an Asia/Hong_Kong instant). -/
def c1FutureItem : Item :=
  { title := "future", link := "https://ex.com/future",
    pub_dt := some ⟨1003600 + hkOff, some hkOff⟩, pub_text := "",
    source := "s", category := "", summary := "", rss_image := "" }

/-- C1: the snapshot build retains a record whose timestamp lies in the
future, but does not clamp that timestamp to "now": the retained record
still carries the future instant 1003600 ≠ 1000000 — no statement in
`build.py` lines 86-117 compares `item.pub_dt` with `now`. -/
theorem c1_clamp_counterexample :
    (snapshotItems 1000000 [c1FutureItem]).map (fun i => i.pub_dt)
      = [some ⟨1003600 + hkOff, some hkOff⟩] ∧
    ∀ i ∈ snapshotItems 1000000 [c1FutureItem], ∀ d, i.pub_dt = some d →
      instantHK d ≠ 1000000 ∧ 1000000 < instantHK d := by
  refine ⟨rfl, by decide⟩

/-- C1 (amended): a decoded record whose normalized timestamp is later
than "now" passes the lookback filter and is retained, with its timestamp
only converted to Asia/Hong_Kong — same instant for aware inputs, no
clamping to "now". -/
theorem c1_future_item_retained_unclamped (nowI : Int) (i : Item)
    (dt : PyDateTime) (rest : List Item) (seen : List String)
    (hdt : i.pub_dt = some dt)
    (hfut : nowI < instantHK (normalizeToHK dt))
    (hseen : i.link ∉ seen) :
    dedupFilter (nowI - lookbackSeconds) (i :: rest) seen
      = { i with pub_dt := some (normalizeToHK dt) }
        :: dedupFilter (nowI - lookbackSeconds) rest (i.link :: seen)
    ∧ (∀ o, dt.off = some o → instantHK (normalizeToHK dt) = dt.wall - o) := by
  constructor
  · have hcut : ¬ instantHK (normalizeToHK dt) < nowI - lookbackSeconds := by
      simp only [lookbackSeconds] at *
      omega
    simp only [dedupFilter, hdt, if_neg hcut, if_neg hseen]
  · intro o ho
    simp only [normalizeToHK, ho, instantHK]
    omega

/-- Witness for `c1_future_item_retained_unclamped`. -/
theorem c1_future_item_retained_unclamped_witness :
    dedupFilter (1000000 - lookbackSeconds) [c1FutureItem] []
      = { c1FutureItem with
            pub_dt := some (normalizeToHK ⟨1003600 + hkOff, some hkOff⟩) }
        :: dedupFilter (1000000 - lookbackSeconds) [] [c1FutureItem.link]
    ∧ (∀ o, (⟨1003600 + hkOff, some hkOff⟩ : PyDateTime).off = some o →
        instantHK (normalizeToHK ⟨1003600 + hkOff, some hkOff⟩)
          = (⟨1003600 + hkOff, some hkOff⟩ : PyDateTime).wall - o) :=
  c1_future_item_retained_unclamped 1000000 c1FutureItem
    ⟨1003600 + hkOff, some hkOff⟩ [] [] rfl (by decide) (by decide)

/-- C2: `fetch_url` does raise for some URLs — the `Request` construction
on line 59 sits outside the `try` block, and a URL without a scheme makes
it raise `ValueError` straight to the caller.  "example.com/feed" (no
scheme) with an empty cache is such an input. -/
theorem c2_fetch_url_raises_counterexample :
    fetch_url [] "example.com/feed" .netError 0
      = .error "ValueError: unknown url type" ∧
    requestUrlOk "example.com/feed" = false :=
  ⟨rfl, rfl⟩

/-- C2 (amended): for every URL the `Request` constructor accepts (the
URL has a scheme), `fetch_url` never raises: an HTTP error or any other
exception returns the last cached payload with its entry as metadata when
one exists and otherwise the empty payload with empty metadata, leaving
the cache unchanged; a success returns the response and updates the
cache. -/
theorem c2_fetch_url_no_raise_fallback (cache : FeedCache) (url : String)
    (tNow : Int) (hurl : requestUrlOk url = true) :
    (∀ code, fetch_url cache url (.httpError code) tNow
        = .ok (fallbackResult cache url, cache)) ∧
    (fetch_url cache url .netError tNow
        = .ok (fallbackResult cache url, cache)) ∧
    (∀ body etag lastModified,
      fetch_url cache url (.success body etag lastModified) tNow
        = .ok ((body, ⟨etag, lastModified, some tNow⟩),
               feedCachePut cache url ⟨some body, etag, lastModified, tNow⟩)) := by
  have hng : ¬ (¬ requestUrlOk url = true) := by simp [hurl]
  refine ⟨?_, ?_, ?_⟩
  · intro code
    simp only [fetch_url, if_neg hng, fallbackResult]
    by_cases hp : entryHasPayload (feedCacheGet cache url) = true
    · by_cases h3 : code = 304 <;> simp [hp, h3]
    · simp [hp]
  · simp only [fetch_url, if_neg hng, fallbackResult]
    by_cases hp : entryHasPayload (feedCacheGet cache url) = true <;> simp [hp]
  · intro body etag lastModified
    simp [fetch_url, hurl]

/-- Witness for `c2_fetch_url_no_raise_fallback`. -/
theorem c2_fetch_url_no_raise_fallback_witness :
    (∀ code, fetch_url [("http://a.com/feed", ⟨some [1, 2], "e", "lm", 5⟩)]
        "http://a.com/feed" (.httpError code) 9
        = .ok (fallbackResult
            [("http://a.com/feed", ⟨some [1, 2], "e", "lm", 5⟩)]
            "http://a.com/feed",
          [("http://a.com/feed", ⟨some [1, 2], "e", "lm", 5⟩)])) ∧
    (fetch_url [("http://a.com/feed", ⟨some [1, 2], "e", "lm", 5⟩)]
        "http://a.com/feed" .netError 9
        = .ok (fallbackResult
            [("http://a.com/feed", ⟨some [1, 2], "e", "lm", 5⟩)]
            "http://a.com/feed",
          [("http://a.com/feed", ⟨some [1, 2], "e", "lm", 5⟩)])) ∧
    (∀ body etag lastModified,
      fetch_url [("http://a.com/feed", ⟨some [1, 2], "e", "lm", 5⟩)]
          "http://a.com/feed" (.success body etag lastModified) 9
        = .ok ((body, ⟨etag, lastModified, some 9⟩),
            feedCachePut [("http://a.com/feed", ⟨some [1, 2], "e", "lm", 5⟩)]
              "http://a.com/feed" ⟨some body, etag, lastModified, 9⟩)) :=
  c2_fetch_url_no_raise_fallback
    [("http://a.com/feed", ⟨some [1, 2], "e", "lm", 5⟩)]
    "http://a.com/feed" 9 (by decide)

/-- C9: format classification follows the leading bytes in the source's
order (PNG magic, then "GIF", then "WEBP" within the first 16 bytes, JPEG
otherwise); the cache key is the URL truncated at its fragment and query;
and the stored filename — the first 16 hex digits of that key's SHA-1
plus the classified extension — is therefore identical for two downloads
whose normalized URLs and classified formats agree. -/
theorem c9_download_image_format_and_filename :
    (∀ data : List Nat,
      ([0x89, 0x50, 0x4E, 0x47].isPrefixOf data = true →
        imageExt data = ".png") ∧
      ([0x89, 0x50, 0x4E, 0x47].isPrefixOf data = false →
        [0x47, 0x49, 0x46].isPrefixOf data = true → imageExt data = ".gif") ∧
      ([0x89, 0x50, 0x4E, 0x47].isPrefixOf data = false →
        [0x47, 0x49, 0x46].isPrefixOf data = false →
        imageExt.listContainsSubBytes (data.take 16) [0x57, 0x45, 0x42, 0x50]
          = true →
        imageExt data = ".webp") ∧
      ([0x89, 0x50, 0x4E, 0x47].isPrefixOf data = false →
        [0x47, 0x49, 0x46].isPrefixOf data = false →
        imageExt.listContainsSubBytes (data.take 16) [0x57, 0x45, 0x42, 0x50]
          = false →
        imageExt data = ".jpg")) ∧
    (∀ url : String,
      (normalizedImageKey url).data <+: url.data ∧
      '#' ∉ (normalizedImageKey url).data ∧
      '?' ∉ (normalizedImageKey url).data) ∧
    (∀ u1 u2 d1 d2, normalizedImageKey u1 = normalizedImageKey u2 →
      imageExt d1 = imageExt d2 →
      storedImageFilename u1 d1 = storedImageFilename u2 d2) := by
  refine ⟨?_, ?_, ?_⟩
  · intro data
    refine ⟨fun h1 => ?_, fun h1 h2 => ?_, fun h1 h2 h3 => ?_,
      fun h1 h2 h3 => ?_⟩
    · simp [imageExt, h1]
    · simp [imageExt, h1, h2]
    · simp [imageExt, h1, h2, h3]
    · simp [imageExt, h1, h2, h3]
  · intro url
    refine ⟨?_, ?_, ?_⟩
    · exact (List.takeWhile_prefix _).trans (List.takeWhile_prefix _)
    · intro hmem
      have := List.mem_takeWhile_imp ((List.takeWhile_prefix _).mem hmem)
      simp at this
    · intro hmem
      have := List.mem_takeWhile_imp hmem
      simp at this
  · intro u1 u2 d1 d2 h1 h2
    unfold storedImageFilename
    rw [h1, h2]

/-- Witness for `c9_download_image_format_and_filename`: a query and a
fragment on the same URL produce the same stored file for a PNG
payload. -/
theorem c9_download_image_format_and_filename_witness :
    storedImageFilename "http://a.com/p.png?q=1" [0x89, 0x50, 0x4E, 0x47]
      = storedImageFilename "http://a.com/p.png#frag"
          [0x89, 0x50, 0x4E, 0x47, 7] :=
  c9_download_image_format_and_filename.2.2 _ _ _ _ (by decide) (by decide)

/-- With no ampersand in sight, the entity pass is the identity. -/
theorem unescapeAux_id (fuel : Nat) :
    ∀ l : List Char, (∀ c ∈ l, c ≠ '&') → unescapeAux fuel l = l := by
  induction fuel with
  | zero => intro l _; rfl
  | succ n ih =>
    intro l h
    cases l with
    | nil => rfl
    | cons c rest =>
      have hc : ¬ c = '&' := h c (by simp)
      simp only [unescapeAux, if_neg hc]
      rw [ih rest (fun x hx => h x (by simp [hx]))]

/-- `htmlUnescape` is the identity on ampersand-free strings. -/
theorem htmlUnescape_id (s : String) (h : ∀ c ∈ s.data, c ≠ '&') :
    htmlUnescape s = s := by
  unfold htmlUnescape
  rw [unescapeAux_id _ _ h]

/-- `dropWhile` is the identity when nothing satisfies the predicate. -/
theorem dropWhile_id_of_not {p : Char → Bool} :
    ∀ l : List Char, (∀ c ∈ l, ¬ p c) → l.dropWhile p = l := by
  intro l hl
  cases l with
  | nil => rfl
  | cons c r => simp [List.dropWhile_cons, hl c (by simp)]

/-- `pyStrip` is the identity on whitespace-free strings. -/
theorem pyStrip_id (s : String) (h : ∀ c ∈ s.data, ¬ isPyWs c) :
    pyStrip s = s := by
  unfold pyStrip
  rw [dropWhile_id_of_not s.data h,
    dropWhile_id_of_not s.data.reverse (fun c hc => h c (List.mem_reverse.mp hc)),
    List.reverse_reverse]

/-- A pattern starting with a character that does not occur cannot occur
as a substring. -/
theorem listContainsSub_false (a : Char) (pat : List Char) :
    ∀ l : List Char, a ∉ l → listContainsSub l (a :: pat) = false := by
  intro l
  induction l with
  | nil => intro _; rfl
  | cons c r ih =>
    intro h
    have hca : ¬ (a == c) = true := by
      simp only [beq_iff_eq]
      intro he
      exact h (he ▸ List.mem_cons_self c r)
    simp only [listContainsSub, List.isPrefixOf, Bool.or_eq_false_iff]
    exact ⟨by simp [hca], ih (fun hm => h (List.mem_cons_of_mem c hm))⟩

/-- `normalize_link` passes a clean absolute URL through unchanged, and
such a URL is non-empty. -/
theorem normalize_link_clean (s : String) (h : cleanAbsUrl s = true) :
    normalize_link s = s ∧ s ≠ "" ∧
    (strStartsWith s "http://" || strStartsWith s "https://") = true := by
  unfold cleanAbsUrl at h
  rw [Bool.and_eq_true] at h
  have habs : (strStartsWith s "http://" || strStartsWith s "https://") = true :=
    h.1
  have hgood : ∀ c ∈ s.data,
      ¬ (c = '&' ∨ c = '<' ∨ c = dq ∨ c = ' ' ∨ isPyWs c) := by
    have h2 := h.2
    rw [List.all_eq_true] at h2
    intro c hc
    simpa using h2 c hc
  have hne : s ≠ "" := by
    intro he
    subst he
    simp [strStartsWith, List.isPrefixOf] at habs
  have hdata : s.data ≠ [] := by
    intro he
    apply hne
    cases s
    simp_all
  refine ⟨?_, hne, habs⟩
  unfold normalize_link
  rw [if_neg hne]
  rw [htmlUnescape_id s (fun c hc hq => (hgood c hc) (Or.inl hq)),
    pyStrip_id s (fun c hc hq => (hgood c hc) (Or.inr (Or.inr (Or.inr (Or.inr hq)))))]
  have hlt : '<' ∉ s.data := fun hm =>
    (hgood '<' hm) (Or.inr (Or.inl rfl))
  have hla : strContains s "<a" = false := by
    unfold strContains
    exact listContainsSub_false '<' ['a'] s.data hlt
  have hdq : s.data.contains dq = false := by
    rw [List.contains_eq_any_beq]
    simp only [List.any_eq_false]
    intro c hc
    simp only [beq_iff_eq]
    intro he
    exact (hgood c hc) (Or.inr (Or.inr (Or.inl he.symm)))
  have hsp : s.data.contains ' ' = false := by
    rw [List.contains_eq_any_beq]
    simp only [List.any_eq_false]
    intro c hc
    simp only [beq_iff_eq]
    intro he
    exact (hgood c hc) (Or.inr (Or.inr (Or.inr (Or.inl he.symm))))
  simp only [hla, Bool.false_and, Bool.false_eq_true, if_false, hdq, hsp]

/-- The raw link text the strict branch reads from an entry. -/
def strictRawLink (e : FeedEntry) : String := findText e.link

/-- C4 (amended): for a non-HTML payload the decoder's output is exactly
the entry-wise record construction of the matching branch, and each
record's link is `normalize_link` applied to the raw link text of its own
entry — the stripped `<link>` text in the strict branch
(`strictRawLink`), the link/id/`link/@href` chain in the tolerant branch
(`laxRawLink`).  The decoder neither guarantees non-emptiness nor
resolves relative links; a clean absolute raw link passes through
unchanged, non-empty and absolute. -/
theorem c4_decoded_link_normalized (p : RawPayload) (source category : String)
    (nowWall : Int) (pd : String → Option PyDateTime)
    (toTrad : String → String)
    (hs : sniffHtml (removeCtrl p.text) = false) :
    (∀ es, p.strictEntries = some es →
      parse_items p source category nowWall pd toTrad
        = es.map (mkItemStrict toTrad pd source category) ∧
      ∀ e ∈ es,
        (mkItemStrict toTrad pd source category e).link
          = normalize_link (strictRawLink e) ∧
        (cleanAbsUrl (strictRawLink e) = true →
          (mkItemStrict toTrad pd source category e).link = strictRawLink e ∧
          (mkItemStrict toTrad pd source category e).link ≠ "" ∧
          (strStartsWith (mkItemStrict toTrad pd source category e).link
              "http://" ||
            strStartsWith (mkItemStrict toTrad pd source category e).link
              "https://") = true)) ∧
    (p.strictEntries = none → ∀ es, p.laxEntries = some es →
      parse_items p source category nowWall pd toTrad
        = es.map (mkItemLax toTrad pd source category) ∧
      ∀ e ∈ es,
        (mkItemLax toTrad pd source category e).link
          = normalize_link (laxRawLink e) ∧
        (cleanAbsUrl (laxRawLink e) = true →
          (mkItemLax toTrad pd source category e).link = laxRawLink e ∧
          (mkItemLax toTrad pd source category e).link ≠ "" ∧
          (strStartsWith (mkItemLax toTrad pd source category e).link
              "http://" ||
            strStartsWith (mkItemLax toTrad pd source category e).link
              "https://") = true)) := by
  constructor
  · intro es hse
    constructor
    · unfold parse_items
      simp only [hs, Bool.false_eq_true, if_false, hse]
    · intro e _
      refine ⟨rfl, fun hcl => ?_⟩
      obtain ⟨hid, hne, habs⟩ := normalize_link_clean (strictRawLink e) hcl
      have hlink : (mkItemStrict toTrad pd source category e).link
          = normalize_link (strictRawLink e) := rfl
      rw [hlink, hid]
      exact ⟨rfl, hne, habs⟩
  · intro hnone es hle
    constructor
    · unfold parse_items
      simp only [hs, Bool.false_eq_true, if_false, hnone, hle]
    · intro e _
      refine ⟨rfl, fun hcl => ?_⟩
      obtain ⟨hid, hne, habs⟩ := normalize_link_clean (laxRawLink e) hcl
      have hlink : (mkItemLax toTrad pd source category e).link
          = normalize_link (laxRawLink e) := rfl
      rw [hlink, hid]
      exact ⟨rfl, hne, habs⟩

/-- The C4 counterexample payload: a well-formed RSS document whose only
item has no link element. -/
def c4Payload : RawPayload :=
  { text := "<rss><channel><item><title>hello</title></item></channel></rss>",
    anchors := [],
    strictEntries := some [⟨"hello", "", "", "", "", none, none, none⟩],
    laxEntries := none }

/-- C4: a valid (parseable) feed payload whose entry lacks a link decodes
to a Record with an empty link — the decoder does not guarantee a
non-empty absolute URL. -/
theorem c4_empty_link_counterexample :
    sniffHtml (removeCtrl c4Payload.text) = false ∧
    (c4Payload.strictEntries.map List.length) = some 1 ∧
    (parse_items c4Payload "https://feeds.example.com/rss" "" 0
        (fun _ => none) id).map Item.link = [""] := by
  refine ⟨by decide, rfl, by decide⟩

/-- The one entry of the C4 witness payload: its raw link text is the
clean absolute URL "https://a.com/x". -/
def c4WitnessEntry : FeedEntry :=
  ⟨"t", "https://a.com/x", "", "", "", none, none, none⟩

/-- Witness for `c4_decoded_link_normalized` at a payload with one
clean absolute link: the decoded record is the construction over that
entry, and its link is the entry's own raw link text, non-empty and
absolute. -/
theorem c4_decoded_link_normalized_witness :
    parse_items
        ⟨"<rss><channel><item><title>t</title></item></channel></rss>", [],
          some [c4WitnessEntry], none⟩
        "https://feeds.example.com/rss" "" 0 (fun _ => none) id
      = [c4WitnessEntry].map
          (mkItemStrict id (fun _ => none) "https://feeds.example.com/rss" "") ∧
    (mkItemStrict id (fun _ => none) "https://feeds.example.com/rss" ""
        c4WitnessEntry).link = normalize_link (strictRawLink c4WitnessEntry) ∧
    ((mkItemStrict id (fun _ => none) "https://feeds.example.com/rss" ""
        c4WitnessEntry).link = strictRawLink c4WitnessEntry ∧
      (mkItemStrict id (fun _ => none) "https://feeds.example.com/rss" ""
        c4WitnessEntry).link ≠ "" ∧
      (strStartsWith (mkItemStrict id (fun _ => none)
          "https://feeds.example.com/rss" "" c4WitnessEntry).link "http://" ||
        strStartsWith (mkItemStrict id (fun _ => none)
          "https://feeds.example.com/rss" "" c4WitnessEntry).link "https://")
        = true) := by
  have h := (c4_decoded_link_normalized
    ⟨"<rss><channel><item><title>t</title></item></channel></rss>", [],
      some [c4WitnessEntry], none⟩
    "https://feeds.example.com/rss" "" 0 (fun _ => none) id (by decide)).1
    [c4WitnessEntry] rfl
  exact ⟨h.1, (h.2 c4WitnessEntry (by decide)).1,
    (h.2 c4WitnessEntry (by decide)).2 (by decide)⟩

/-- Stable insertion permutes. -/
theorem insertDesc_perm (x : Item) (l : List Item) :
    (insertDesc x l).Perm (x :: l) := by
  induction l with
  | nil => exact List.Perm.refl _
  | cons y ys ih =>
    unfold insertDesc
    by_cases h : sortKey y ≤ sortKey x
    · rw [if_pos h]
    · rw [if_neg h]
      exact (ih.cons y).trans (List.Perm.swap x y ys)

/-- The descending sort permutes. -/
theorem sortDesc_perm (l : List Item) : (sortDesc l).Perm l := by
  induction l with
  | nil => exact List.Perm.refl _
  | cons x xs ih =>
    unfold sortDesc
    exact (insertDesc_perm x (sortDesc xs)).trans (ih.cons x)

/-- Once a link is in `seen_links`, the filter emits no record with
it. -/
theorem dedup_countP_zero (c : Int) (l : String) :
    ∀ (raw : List Item) (seen : List String), l ∈ seen →
      (dedupFilter c raw seen).countP (fun x => x.link == l) = 0 := by
  intro raw
  induction raw with
  | nil => intro seen _; rfl
  | cons i rest ih =>
    intro seen hseen
    cases hdt : i.pub_dt with
    | none => simp only [dedupFilter, hdt]; exact ih seen hseen
    | some dt =>
      simp only [dedupFilter, hdt]
      by_cases hcut : instantHK (normalizeToHK dt) < c
      · rw [if_pos hcut]
        exact ih seen hseen
      · rw [if_neg hcut]
        by_cases hmem : i.link ∈ seen
        · rw [if_pos hmem]
          exact ih seen hseen
        · rw [if_neg hmem]
          rw [List.countP_cons]
          have hlink : ¬ i.link = l := fun he => hmem (he ▸ hseen)
          simp only [beq_iff_eq, hlink]
          rw [ih (i.link :: seen) (List.mem_cons_of_mem _ hseen)]
          simp

/-- The filter emits at most one record per link. -/
theorem dedup_countP_le_one (c : Int) (l : String) :
    ∀ (raw : List Item) (seen : List String),
      (dedupFilter c raw seen).countP (fun x => x.link == l) ≤ 1 := by
  intro raw
  induction raw with
  | nil => intro seen; simp [dedupFilter]
  | cons i rest ih =>
    intro seen
    cases hdt : i.pub_dt with
    | none => simp only [dedupFilter, hdt]; exact ih seen
    | some dt =>
      simp only [dedupFilter, hdt]
      by_cases hcut : instantHK (normalizeToHK dt) < c
      · rw [if_pos hcut]; exact ih seen
      · rw [if_neg hcut]
        by_cases hmem : i.link ∈ seen
        · rw [if_pos hmem]; exact ih seen
        · rw [if_neg hmem]
          rw [List.countP_cons]
          by_cases hlink : i.link = l
          · simp only [beq_iff_eq, hlink]
            rw [dedup_countP_zero c l rest (l :: seen)
              (List.mem_cons_self l seen)]
            simp
          · simp only [beq_iff_eq, hlink]
            have := ih (i.link :: seen)
            simpa using this

/-- Every record the filter emits has a link outside the incoming
`seen_links`. -/
theorem dedup_mem_not_seen (c : Int) :
    ∀ (raw : List Item) (seen : List String) (x : Item),
      x ∈ dedupFilter c raw seen → x.link ∉ seen := by
  intro raw
  induction raw with
  | nil => intro seen x hx; simp [dedupFilter] at hx
  | cons i rest ih =>
    intro seen x hx
    cases hdt : i.pub_dt with
    | none => simp only [dedupFilter, hdt] at hx; exact ih seen x hx
    | some dt =>
      simp only [dedupFilter, hdt] at hx
      by_cases hcut : instantHK (normalizeToHK dt) < c
      · rw [if_pos hcut] at hx; exact ih seen x hx
      · rw [if_neg hcut] at hx
        by_cases hmem : i.link ∈ seen
        · rw [if_pos hmem] at hx; exact ih seen x hx
        · rw [if_neg hmem] at hx
          rcases List.mem_cons.mp hx with he | hx2
          · subst he; exact hmem
          · have := ih (i.link :: seen) x hx2
            exact fun hs => this (List.mem_cons_of_mem _ hs)

/-- Любой emitted record with link `l` is the first timestamp-valid
occurrence of `l`, with its timestamp normalized. -/
theorem dedup_mem_first_valid (c : Int) (l : String) :
    ∀ (raw : List Item) (seen : List String) (x : Item), l ∉ seen →
      x ∈ dedupFilter c raw seen → x.link = l →
      ∃ i, firstValidWithLink c l raw = some i ∧ x = retainItem i := by
  intro raw
  induction raw with
  | nil => intro seen x _ hx; simp [dedupFilter] at hx
  | cons i rest ih =>
    intro seen x hls hx hxl
    unfold firstValidWithLink
    cases hdt : i.pub_dt with
    | none =>
      simp only [dedupFilter, hdt] at hx
      have hv : validItem c i = false := by simp [validItem, hdt]
      rw [if_neg (by simp [hv])]
      exact ih seen x hls hx hxl
    | some dt =>
      simp only [dedupFilter, hdt] at hx
      by_cases hcut : instantHK (normalizeToHK dt) < c
      · rw [if_pos hcut] at hx
        have hv : validItem c i = false := by
          simp [validItem, hdt]
          omega
        rw [if_neg (by simp [hv])]
        exact ih seen x hls hx hxl
      · have hv : validItem c i = true := by
          simp [validItem, hdt]
          omega
        rw [if_neg hcut] at hx
        by_cases hmem : i.link ∈ seen
        · rw [if_pos hmem] at hx
          have hlink : ¬ i.link = l := fun he => hls (he ▸ hmem)
          rw [if_neg (by simp [hlink])]
          exact ih seen x hls hx hxl
        · rw [if_neg hmem] at hx
          by_cases hlink : i.link = l
          · rw [if_pos (by exact ⟨hlink, hv⟩)]
            rcases List.mem_cons.mp hx with he | hx2
            · refine ⟨i, rfl, ?_⟩
              rw [he]
              simp [retainItem, hdt]
            · exfalso
              have := dedup_mem_not_seen c rest (i.link :: seen) x hx2
              exact this (by simp [hxl, hlink])
          · rw [if_neg (by simp [hlink])]
            rcases List.mem_cons.mp hx with he | hx2
            · exfalso
              apply hlink
              rw [← hxl, he]
            · refine ih (i.link :: seen) x ?_ hx2 hxl
              intro hm
              rcases List.mem_cons.mp hm with he | hm2
              · exact hlink he.symm
              · exact hls hm2

/-- When some occurrence of `l` is timestamp-valid and `l` is unseen, the
filter emits exactly one record with link `l`. -/
theorem dedup_countP_one (c : Int) (l : String) :
    ∀ (raw : List Item) (seen : List String), l ∉ seen →
      (∃ i ∈ raw, i.link = l ∧ validItem c i = true) →
      (dedupFilter c raw seen).countP (fun x => x.link == l) = 1 := by
  intro raw
  induction raw with
  | nil => intro seen _ hex; simp at hex
  | cons i rest ih =>
    intro seen hls hex
    cases hdt : i.pub_dt with
    | none =>
      simp only [dedupFilter, hdt]
      have hv : validItem c i = false := by simp [validItem, hdt]
      refine ih seen hls ?_
      rcases hex with ⟨j, hj, hjl, hjv⟩
      rcases List.mem_cons.mp hj with he | hj2
      · rw [he] at hjv; rw [hv] at hjv; cases hjv
      · exact ⟨j, hj2, hjl, hjv⟩
    | some dt =>
      simp only [dedupFilter, hdt]
      by_cases hcut : instantHK (normalizeToHK dt) < c
      · rw [if_pos hcut]
        have hv : validItem c i = false := by
          simp [validItem, hdt]
          omega
        refine ih seen hls ?_
        rcases hex with ⟨j, hj, hjl, hjv⟩
        rcases List.mem_cons.mp hj with he | hj2
        · rw [he] at hjv; rw [hv] at hjv; cases hjv
        · exact ⟨j, hj2, hjl, hjv⟩
      · rw [if_neg hcut]
        by_cases hmem : i.link ∈ seen
        · rw [if_pos hmem]
          have hlink : ¬ i.link = l := fun he => hls (he ▸ hmem)
          refine ih seen hls ?_
          rcases hex with ⟨j, hj, hjl, hjv⟩
          rcases List.mem_cons.mp hj with he | hj2
          · exfalso; apply hlink; rw [← hjl, he]
          · exact ⟨j, hj2, hjl, hjv⟩
        · rw [if_neg hmem]
          rw [List.countP_cons]
          by_cases hlink : i.link = l
          · simp only [beq_iff_eq, hlink]
            rw [dedup_countP_zero c l rest (l :: seen)
              (List.mem_cons_self l seen)]
            simp
          · simp only [beq_iff_eq, hlink]
            have hnot : l ∉ i.link :: seen := by
              intro hm
              rcases List.mem_cons.mp hm with he | hm2
              · exact hlink he.symm
              · exact hls hm2
            have hex2 : ∃ j ∈ rest, j.link = l ∧ validItem c j = true := by
              rcases hex with ⟨j, hj, hjl, hjv⟩
              rcases List.mem_cons.mp hj with he | hj2
              · exfalso; apply hlink; rw [← hjl, he]
              · exact ⟨j, hj2, hjl, hjv⟩
            rw [ih (i.link :: seen) hnot hex2]
            simp

/-- C7 (amended): the snapshot never holds two records with one link; and
when at least one occurrence of the link passes the timestamp filter and
the deduplicated list fits under the retained-count cap, it holds exactly
one — the first timestamp-valid occurrence in processing order (records
lacking a timestamp or outside the window are passed over), with its
timestamp normalized. -/
theorem c7_dedup_by_link (nowI : Int) (raw : List Item) (l : String) :
    (snapshotItems nowI raw).countP (fun x => x.link == l) ≤ 1 ∧
    ((∃ i ∈ raw, i.link = l ∧
        validItem (nowI - lookbackSeconds) i = true) →
      (dedupFilter (nowI - lookbackSeconds) raw []).length ≤ DEFAULT_MAX_ITEMS →
      (snapshotItems nowI raw).countP (fun x => x.link == l) = 1 ∧
      ∀ x ∈ snapshotItems nowI raw, x.link = l →
        ∃ i, firstValidWithLink (nowI - lookbackSeconds) l raw = some i ∧
          x = retainItem i) := by
  have hperm := sortDesc_perm (dedupFilter (nowI - lookbackSeconds) raw [])
  constructor
  · calc (snapshotItems nowI raw).countP (fun x => x.link == l)
        ≤ (sortDesc (dedupFilter (nowI - lookbackSeconds) raw [])).countP
            (fun x => x.link == l) :=
          (List.take_sublist _ _).countP_le _
      _ = (dedupFilter (nowI - lookbackSeconds) raw []).countP
            (fun x => x.link == l) := hperm.countP_eq _
      _ ≤ 1 := dedup_countP_le_one _ l raw []
  · intro hex hlen
    have hlen2 : (sortDesc (dedupFilter (nowI - lookbackSeconds) raw [])).length
        ≤ DEFAULT_MAX_ITEMS := by
      rw [hperm.length_eq]; exact hlen
    have htake : (sortDesc (dedupFilter (nowI - lookbackSeconds) raw [])).take
        DEFAULT_MAX_ITEMS
        = sortDesc (dedupFilter (nowI - lookbackSeconds) raw []) :=
      List.take_of_length_le hlen2
    constructor
    · unfold snapshotItems
      rw [htake, hperm.countP_eq]
      exact dedup_countP_one _ l raw [] (List.not_mem_nil l) hex
    · intro x hx hxl
      have hxD : x ∈ dedupFilter (nowI - lookbackSeconds) raw [] := by
        unfold snapshotItems at hx
        rw [htake] at hx
        exact hperm.mem_iff.mp hx
      exact dedup_mem_first_valid _ l raw [] x (List.not_mem_nil l) hxD hxl

/-- The first C7 counterexample record: link "https://ex.com/dup", too old
for the window. -/
def c7FirstItem : Item :=
  { title := "a", link := "https://ex.com/dup",
    pub_dt := some ⟨100 + hkOff, some hkOff⟩, pub_text := "first",
    source := "s", category := "", summary := "", rss_image := "" }

/-- The second C7 counterexample record: same link, inside the window. -/
def c7SecondItem : Item :=
  { title := "b", link := "https://ex.com/dup",
    pub_dt := some ⟨199000 + hkOff, some hkOff⟩, pub_text := "second",
    source := "s", category := "", summary := "", rss_image := "" }

/-- C7: an input with two records whose links are equal for which the
snapshot keeps the SECOND occurrence, not the first — the lookback filter
passes over the first occurrence before the dedup set ever sees its link,
so "the first occurrence in processing order" is not what survives. -/
theorem c7_first_occurrence_counterexample :
    c7FirstItem.link = c7SecondItem.link ∧
    (snapshotItems 200000 [c7FirstItem, c7SecondItem]).countP
      (fun x => x.link == "https://ex.com/dup") = 1 ∧
    (snapshotItems 200000 [c7FirstItem, c7SecondItem]).map
      (fun i => i.pub_text) = ["second"] ∧
    c7FirstItem.pub_text = "first" := by
  refine ⟨rfl, by decide, by decide, rfl⟩

/-- Witness for `c7_dedup_by_link`. -/
theorem c7_dedup_by_link_witness :
    (snapshotItems 200000 [c7SecondItem]).countP
        (fun x => x.link == "https://ex.com/dup") = 1 ∧
    ∀ x ∈ snapshotItems 200000 [c7SecondItem], x.link = "https://ex.com/dup" →
      ∃ i, firstValidWithLink (200000 - lookbackSeconds) "https://ex.com/dup"
          [c7SecondItem] = some i ∧ x = retainItem i :=
  (c7_dedup_by_link 200000 [c7SecondItem] "https://ex.com/dup").2
    (by decide) (by decide)

/-- The HK01 scrape loop can never emit a record (the `Item` construction
fails, see `c3_html_scraper_yields_no_records`). -/
theorem scrapeHk01_eq_nil (nowWall : Int) (source : String) :
    ∀ (as : List Anchor) (seen : List String),
      scrapeHk01 nowWall source as seen = [] := by
  intro as
  induction as with
  | nil => intro seen; rfl
  | cons a rest ih =>
    intro seen
    cases h : a.href with
    | none => simp only [scrapeHk01, h]; exact ih seen
    | some href =>
      simp only [scrapeHk01, h]
      split
      · exact ih seen
      · split
        · exact ih seen
        · split
          · exact ih seen
          · rfl

/-- The On.cc scrape loop can never emit a record either. -/
theorem scrapeOncc_eq_nil (nowWall : Int) (source : String) :
    ∀ (as : List Anchor) (seen : List String),
      scrapeOncc nowWall source as seen = [] := by
  intro as
  induction as with
  | nil => intro seen; rfl
  | cons a rest ih =>
    intro seen
    cases h : a.href with
    | none => simp only [scrapeOncc, h]; exact ih seen
    | some href =>
      simp only [scrapeOncc, h]
      split
      · exact ih seen
      · split
        · exact ih seen
        · split
          · exact ih seen
          · split
            · exact ih seen
            · split
              · exact ih _
              · rfl

/-- The HTML fallback scraper returns no records for any source. -/
theorem scrape_html_feed_eq_nil (anchors : List Anchor) (source : String)
    (nowWall : Int) : scrape_html_feed anchors source nowWall = [] := by
  unfold scrape_html_feed
  split
  · exact scrapeHk01_eq_nil _ _ _ _
  · split
    · exact scrapeOncc_eq_nil _ _ _ _
    · rfl

/-- `parse_pub_date` never returns a naive datetime. -/
theorem parse_pub_date_aware (pd : String → Option PyDateTime) (text : String)
    (dt : PyDateTime) (h : parse_pub_date pd text = some dt) :
    dt.off.isSome = true := by
  unfold parse_pub_date at h
  split at h
  · cases h
  · cases hpd : pd text with
    | none => rw [hpd] at h; cases h
    | some d =>
      rw [hpd] at h
      simp only at h
      cases hoff : d.off with
      | none =>
        simp only [hoff] at h
        cases h
        rfl
      | some o =>
        simp only [hoff] at h
        cases h
        rw [hoff]
        rfl

/-- The normalization step always produces the Hong Kong offset. -/
theorem normalizeToHK_off (dt : PyDateTime) :
    (normalizeToHK dt).off = some hkOff := by
  unfold normalizeToHK
  cases dt.off <;> rfl

/-- Every record the filter emits carries an aware, Hong-Kong-offset
timestamp. -/
theorem dedup_mem_aware (c : Int) :
    ∀ (raw : List Item) (seen : List String) (x : Item),
      x ∈ dedupFilter c raw seen →
      ∃ d, x.pub_dt = some d ∧ d.off = some hkOff := by
  intro raw
  induction raw with
  | nil => intro seen x hx; simp [dedupFilter] at hx
  | cons i rest ih =>
    intro seen x hx
    cases hdt : i.pub_dt with
    | none => simp only [dedupFilter, hdt] at hx; exact ih seen x hx
    | some dt =>
      simp only [dedupFilter, hdt] at hx
      by_cases hcut : instantHK (normalizeToHK dt) < c
      · rw [if_pos hcut] at hx; exact ih seen x hx
      · rw [if_neg hcut] at hx
        by_cases hmem : i.link ∈ seen
        · rw [if_pos hmem] at hx; exact ih seen x hx
        · rw [if_neg hmem] at hx
          rcases List.mem_cons.mp hx with he | hx2
          · subst he
            exact ⟨normalizeToHK dt, rfl, normalizeToHK_off dt⟩
          · exact ih (i.link :: seen) x hx2

/-- C10: every record the feed decoder produces has a publish timestamp
that is `None` or timezone-aware — `parse_pub_date` assigns Asia/Hong_Kong
to naive parsed dates, and the HTML-scrape branch (whose records would
carry a naive `datetime.now()`) never emits a record at all — and the
orchestrator normalizes what it compares, so its comparisons and sort run
on aware Hong-Kong timestamps throughout. -/
theorem c10_decoder_timestamps_aware :
    (∀ (pd : String → Option PyDateTime) (text : String) (dt : PyDateTime),
      parse_pub_date pd text = some dt → dt.off.isSome = true) ∧
    (∀ (pd : String → Option PyDateTime) (text : String) (w : Int),
      text ≠ "" → pd text = some ⟨w, none⟩ →
      parse_pub_date pd text = some ⟨w, some hkOff⟩) ∧
    (∀ (p : RawPayload) (source category : String) (nowWall : Int)
        (pd : String → Option PyDateTime) (toTrad : String → String),
      ∀ it ∈ parse_items p source category nowWall pd toTrad,
        ∀ dt, it.pub_dt = some dt → dt.off.isSome = true) ∧
    (∀ (nowI : Int) (raw : List Item), ∀ x ∈ snapshotItems nowI raw,
      ∃ d, x.pub_dt = some d ∧ d.off = some hkOff) := by
  refine ⟨parse_pub_date_aware, ?_, ?_, ?_⟩
  · intro pd text w hne hpd
    unfold parse_pub_date
    rw [if_neg hne, hpd]
  · intro p source category nowWall pd toTrad it hit dt hdt
    unfold parse_items at hit
    by_cases hs : sniffHtml (removeCtrl p.text) = true
    · simp only [hs, if_true] at hit
      rw [scrape_html_feed_eq_nil] at hit
      cases hit
    · simp only [hs, if_false] at hit
      cases hse : p.strictEntries with
      | some es =>
        rw [hse] at hit
        obtain ⟨e, _, rfl⟩ := List.mem_map.mp hit
        exact parse_pub_date_aware pd _ dt hdt
      | none =>
        rw [hse] at hit
        cases hle : p.laxEntries with
        | some es =>
          rw [hle] at hit
          obtain ⟨e, _, rfl⟩ := List.mem_map.mp hit
          exact parse_pub_date_aware pd _ dt hdt
        | none =>
          rw [hle] at hit
          cases hit
  · intro nowI raw x hx
    unfold snapshotItems at hx
    have hx2 : x ∈ sortDesc (dedupFilter (nowI - lookbackSeconds) raw []) :=
      List.mem_of_mem_take hx
    have hx3 : x ∈ dedupFilter (nowI - lookbackSeconds) raw [] :=
      (sortDesc_perm _).mem_iff.mp hx2
    exact dedup_mem_aware _ raw [] x hx3

/-- Witness for `c10_decoder_timestamps_aware`: a naive parsed date comes
back with the Hong Kong zone attached. -/
theorem c10_decoder_timestamps_aware_witness :
    parse_pub_date (fun _ => some ⟨5, none⟩) "Mon, 05 Jan 2026 00:00:05 GMT"
      = some ⟨5, some hkOff⟩ :=
  c10_decoder_timestamps_aware.2.1 (fun _ => some ⟨5, none⟩)
    "Mon, 05 Jan 2026 00:00:05 GMT" 5 (by decide) rfl

end RssReader
